import Mathlib

/-!
Verification of the parameter-validation and revision-lifecycle engine of
py-param-cad against its specification.

The development shallowly embeds the relevant Python sources:
  - cad_generator/data/repositories.py (revision code allocator, RevisionRepository)
  - cad_generator/core/validation_engine.py (Severity, ValidationEngine.validate)
  - cad_generator/core/piece_controller.py (PieceController.generate)
  - cad_generator/data/models.py (Revision ORM model, parameters JSON property)

Database tables are modelled as Lean lists in insertion order; the SQLAlchemy
session is explicit state passing; Python exceptions are Option/Except; the
Python builtin eval used by the rule evaluator is an abstract parameter of the
embedding; the json standard library functions dumps/loads are modelled by an
executable encoder and a fuelled recursive descent parser over the value
subset the program stores (objects mapping strings to integers, booleans and
strings).
-/

namespace PyParamCad

/-! ## Revision code allocator (repositories.py, _increment_revision_code) -/

/-- One step of the carry loop of _increment_revision_code, acting on the list
of characters in reverse (least significant character first).  The empty case
is the carry running past the first character, which inserts a leading A. -/
def incRev : List Char → List Char
  | [] => ['A']
  | c :: rest =>
      if c = 'Z' then 'A' :: incRev rest
      else Char.ofNat (c.toNat + 1) :: rest

/-- Python str.upper restricted to the ASCII mapping, applied per character. -/
def strUpper (s : String) : String := ⟨s.data.map Char.toUpper⟩

/-- Embeds _increment_revision_code from repositories.py: uppercase the code,
then run the carry loop from the last character backwards. -/
def increment_revision_code (code : String) : String :=
  ⟨(incRev (strUpper code).data.reverse).reverse⟩

/-! ### Bijective base-26 numbering (specification side)

The spec sequence A, B, ..., Z, AA, AB, ... is the bijective base-26
numbering of the positive integers.  `revRep n` is the digit list of `n`
least significant digit first, over digits 0..25 standing for A..Z. -/

/-- Fuelled digit extraction for the bijective base-26 representation. -/
def revRepAux : Nat → Nat → List (Fin 26)
  | _, 0 => []
  | 0, _ + 1 => []
  | fuel + 1, m + 1 => ⟨m % 26, by omega⟩ :: revRepAux fuel (m / 26)

/-- Bijective base-26 digits of n, least significant first. -/
def revRep (n : Nat) : List (Fin 26) := revRepAux n n

/-- Value of a digit list (least significant first) in bijective base 26. -/
def valRev : List (Fin 26) → Nat
  | [] => 0
  | d :: rest => d.val + 1 + 26 * valRev rest

/-- Successor on reversed digit lists in bijective base 26. -/
def incDigitsRev : List (Fin 26) → List (Fin 26)
  | [] => [⟨0, by omega⟩]
  | d :: rest =>
      if d.val = 25 then ⟨0, by omega⟩ :: incDigitsRev rest
      else ⟨(d.val + 1) % 26, by omega⟩ :: rest

/-- The uppercase letter standing for a base-26 digit. -/
def charOfDigit (d : Fin 26) : Char := Char.ofNat (65 + d.val)

/-- The n-th positive integer written in the alphabetic sequence
A, B, ..., Z, AA, AB, ... (most significant letter first). -/
def codeOfNat (n : Nat) : String := ⟨((revRep n).map charOfDigit).reverse⟩

/-! ## JSON (models the json standard library as used by models.py)

The program stores parameter dictionaries with json.dumps(value,
ensure_ascii=False) and reads them back with json.loads.  The stored values
are mappings from strings to numbers, booleans and strings.  Python ints are
modelled as integers; Python floats (the dimensional parameters coming from
the spin box widgets, such as espesor = 2.0) are serialized by json.dumps
through repr, which prints a finite nonzero float as a decimal literal:
optional minus, integer part digits, an optional dot with fraction digits,
and an optional exponent e with an explicit sign and digits (2.0, 123.456,
1e+16, 1.5e-07).  The float case is therefore modelled as that decimal
literal, digit for digit: repr and float are mutually inverse on finite
floats, so the stored text determines the float and the round trip of the
program is the round trip of the literal.  A Python dict is modelled as an
association list in insertion order, which is also the order dumps
serializes and loads reconstructs. -/

inductive JValue where
  | num (n : Int)
  | dec (neg : Bool) (ipart : List (Fin 10)) (frac : List (Fin 10))
      (exp : Option (Bool × List (Fin 10)))
  | bool (b : Bool)
  | str (s : String)
deriving DecidableEq, Repr

/-- The decimal literals that Python float repr actually produces: at least
one integer part digit, a fraction or an exponent present (repr of a float
always prints a dot or an e, which is also what keeps json.loads returning a
float and not an int), and nonempty exponent digits. -/
def JValue.wf : JValue → Bool
  | .dec _ ipart frac exp =>
      !ipart.isEmpty && (!frac.isEmpty || exp.isSome) &&
        (match exp with
         | none => true
         | some (_, ds) => !ds.isEmpty)
  | _ => true

/-- The left brace character. -/
def lbrace : Char := '\x7b'

/-- The right brace character. -/
def rbrace : Char := '\x7d'

/-- Lowercase hexadecimal digit, as emitted by the json encoder. -/
def hexDigitChar (n : Nat) : Char :=
  if n < 10 then Char.ofNat (48 + n) else Char.ofNat (87 + n)

/-- Escaping of one character inside a JSON string, following json.dumps with
ensure_ascii=False: quote, backslash and control characters are escaped
(with short forms for backspace, tab, newline, form feed, carriage return),
every other character is written literally. -/
def escapeChar (c : Char) : List Char :=
  if c = '"' then ['\\', '"']
  else if c = '\\' then ['\\', '\\']
  else if c = Char.ofNat 8 then ['\\', 'b']
  else if c = Char.ofNat 9 then ['\\', 't']
  else if c = Char.ofNat 10 then ['\\', 'n']
  else if c = Char.ofNat 12 then ['\\', 'f']
  else if c = Char.ofNat 13 then ['\\', 'r']
  else if c.toNat < 32 then
    ['\\', 'u', '0', '0', hexDigitChar (c.toNat / 16), hexDigitChar (c.toNat % 16)]
  else [c]

/-- Escape every character of a string body. -/
def escapeList : List Char → List Char
  | [] => []
  | c :: cs => escapeChar c ++ escapeList cs

/-- A JSON string literal: quote, escaped body, quote. -/
def encodeString (s : String) : List Char :=
  '"' :: escapeList s.data ++ ['"']

/-- Decimal digit character. -/
def digitChar (d : Nat) : Char := Char.ofNat (48 + d % 10)

/-- Fuelled decimal digit extraction, least significant digit first. -/
def natCharsRevAux : Nat → Nat → List Char
  | _, 0 => []
  | 0, _ + 1 => []
  | fuel + 1, m + 1 => digitChar ((m + 1) % 10) :: natCharsRevAux fuel ((m + 1) / 10)

/-- Decimal representation of a natural number. -/
def natChars (n : Nat) : List Char :=
  if n = 0 then ['0'] else (natCharsRevAux n n).reverse

/-- Decimal representation of an integer, as json.dumps prints int values. -/
def intChars (i : Int) : List Char :=
  if i < 0 then '-' :: natChars i.natAbs else natChars i.natAbs

/-- The digit characters of a digit list, most significant first. -/
def digitsChars (l : List (Fin 10)) : List Char :=
  l.map (fun d => Char.ofNat (48 + d.val))

/-- The digit list of a list of digit characters. -/
def digitsOf (l : List Char) : List (Fin 10) :=
  l.map (fun c => ⟨(c.toNat - 48) % 10, by omega⟩)

/-- The float decimal literal as Python repr prints it and json.dumps copies
it: optional minus, integer digits, dot and fraction digits when a fraction
is present, and e with an explicit sign and digits when an exponent is
present. -/
def encodeDec (neg : Bool) (ipart frac : List (Fin 10))
    (exp : Option (Bool × List (Fin 10))) : List Char :=
  (if neg then ['-'] else []) ++ digitsChars ipart ++
    (if frac.isEmpty then [] else '.' :: digitsChars frac) ++
    (match exp with
     | none => []
     | some (eneg, ds) => 'e' :: (if eneg then '-' else '+') :: digitsChars ds)

/-- Serialization of a scalar JSON value. -/
def encodeJValue : JValue → List Char
  | .num i => intChars i
  | .dec neg ipart frac exp => encodeDec neg ipart frac exp
  | .bool true => ['t', 'r', 'u', 'e']
  | .bool false => ['f', 'a', 'l', 's', 'e']
  | .str s => encodeString s

/-- The comma separated key colon value items of a JSON object, using the
default json.dumps separators. -/
def encodeItems : List (String × JValue) → List Char
  | [] => []
  | [(k, v)] => encodeString k ++ ':' :: ' ' :: encodeJValue v
  | (k, v) :: rest =>
      encodeString k ++ ':' :: ' ' :: encodeJValue v ++ ',' :: ' ' :: encodeItems rest

/-- A JSON object document. -/
def encodeObj (m : List (String × JValue)) : List Char :=
  lbrace :: encodeItems m ++ [rbrace]

/-- Models json.dumps(value, ensure_ascii=False) on a dict of scalars. -/
def dumps (m : List (String × JValue)) : String := ⟨encodeObj m⟩

/-- Models json.dumps on a list of strings (used for the stored validation
warning snapshot). -/
def encodeStrItems : List String → List Char
  | [] => []
  | [s] => encodeString s
  | s :: rest => encodeString s ++ ',' :: ' ' :: encodeStrItems rest

/-- json.dumps of a list of strings. -/
def dumpsStrList (l : List String) : String :=
  ⟨'[' :: encodeStrItems l ++ [']']⟩

/-- JSON whitespace. -/
def wsChar (c : Char) : Bool :=
  c = ' ' || c = '\t' || c = '\n' || c = '\x0d'

/-- Skip leading whitespace. -/
def skipWs : List Char → List Char
  | [] => []
  | c :: cs => if wsChar c then skipWs cs else c :: cs

/-- Value of one hexadecimal digit character. -/
def hexVal (c : Char) : Option Nat :=
  if 48 ≤ c.toNat ∧ c.toNat ≤ 57 then some (c.toNat - 48)
  else if 97 ≤ c.toNat ∧ c.toNat ≤ 102 then some (c.toNat - 87)
  else if 65 ≤ c.toNat ∧ c.toNat ≤ 70 then some (c.toNat - 55)
  else none

/-- Body of a JSON string literal after the opening quote: collects characters
until the closing quote, decoding escapes.  Fuelled; the fuel is an upper
bound on the number of loop steps (one step consumes at least one input
character).  Surrogate pair decoding is outside the modelled subset. -/
def parseStringBody : Nat → List Char → Option (List Char × List Char)
  | 0, _ => none
  | _ + 1, [] => none
  | fuel + 1, c :: cs =>
    if c = '"' then some ([], cs)
    else if c = '\\' then
      match cs with
      | [] => none
      | e :: cs2 =>
        if e = '"' then (parseStringBody fuel cs2).map (fun p => ('"' :: p.1, p.2))
        else if e = '\\' then (parseStringBody fuel cs2).map (fun p => ('\\' :: p.1, p.2))
        else if e = '/' then (parseStringBody fuel cs2).map (fun p => ('/' :: p.1, p.2))
        else if e = 'b' then (parseStringBody fuel cs2).map (fun p => (Char.ofNat 8 :: p.1, p.2))
        else if e = 'f' then (parseStringBody fuel cs2).map (fun p => (Char.ofNat 12 :: p.1, p.2))
        else if e = 'n' then (parseStringBody fuel cs2).map (fun p => (Char.ofNat 10 :: p.1, p.2))
        else if e = 'r' then (parseStringBody fuel cs2).map (fun p => (Char.ofNat 13 :: p.1, p.2))
        else if e = 't' then (parseStringBody fuel cs2).map (fun p => (Char.ofNat 9 :: p.1, p.2))
        else if e = 'u' then
          match cs2 with
          | h1 :: h2 :: h3 :: h4 :: cs3 =>
            match hexVal h1, hexVal h2, hexVal h3, hexVal h4 with
            | some a, some b, some c2, some d =>
                (parseStringBody fuel cs3).map
                  (fun p => (Char.ofNat (((a * 16 + b) * 16 + c2) * 16 + d) :: p.1, p.2))
            | _, _, _, _ => none
          | _ => none
        else none
    else (parseStringBody fuel cs).map (fun p => (c :: p.1, p.2))

/-- A JSON string literal. -/
def parseString (fuel : Nat) : List Char → Option (String × List Char)
  | c :: cs =>
      if c = '"' then (parseStringBody fuel cs).map (fun p => (⟨p.1⟩, p.2))
      else none
  | [] => none

/-- Longest prefix of decimal digit characters. -/
def spanDigits : List Char → List Char × List Char
  | [] => ([], [])
  | c :: cs =>
      if c.isDigit then
        let p := spanDigits cs
        (c :: p.1, p.2)
      else ([], c :: cs)

/-- Value of a list of decimal digit characters, most significant first. -/
def digitsVal (ds : List Char) : Nat :=
  ds.foldl (fun a c => a * 10 + (c.toNat - 48)) 0

/-- The exponent part after the e: an optional sign and the exponent
digits. -/
def parseExp (input : List Char) : Option ((Bool × List (Fin 10)) × List Char) :=
  match input with
  | [] => none
  | c :: rest =>
    if c = '+' then
      let p := spanDigits rest
      if p.1 = [] then none else some ((false, digitsOf p.1), p.2)
    else if c = '-' then
      let p := spanDigits rest
      if p.1 = [] then none else some ((true, digitsOf p.1), p.2)
    else
      let p := spanDigits (c :: rest)
      if p.1 = [] then none else some ((false, digitsOf p.1), p.2)

/-- The unsigned body of a JSON number: integer digits, then an optional
fraction and an optional exponent; as in json.loads, the literal is a float
exactly when a dot or an exponent is present, an int otherwise.  (Like the
int case before it, the model does not re-check the no-leading-zero rule of
the JSON grammar, which repr output never exercises.) -/
def parseNumBody (input : List Char) : Option (JValue × List Char) :=
  let p := spanDigits input
  if p.1 = [] then none
  else
    match p.2 with
    | [] => some (.num (digitsVal p.1), [])
    | c2 :: rest2 =>
      if c2 = '.' then
        let q := spanDigits rest2
        if q.1 = [] then none
        else
          match q.2 with
          | [] => some (.dec false (digitsOf p.1) (digitsOf q.1) none, [])
          | c3 :: rest3 =>
            if c3 = 'e' ∨ c3 = 'E' then
              match parseExp rest3 with
              | none => none
              | some (ex, rest4) =>
                  some (.dec false (digitsOf p.1) (digitsOf q.1) (some ex), rest4)
            else some (.dec false (digitsOf p.1) (digitsOf q.1) none, c3 :: rest3)
      else if c2 = 'e' ∨ c2 = 'E' then
        match parseExp rest2 with
        | none => none
        | some (ex, rest3) => some (.dec false (digitsOf p.1) [] (some ex), rest3)
      else some (.num (digitsVal p.1), c2 :: rest2)

/-- The sign of a parsed number applied to its unsigned body. -/
def applyNeg : JValue → JValue
  | .num i => .num (-i)
  | .dec _ ipart frac exp => .dec true ipart frac exp
  | v => v

/-- A JSON number literal: int or float following the json.loads
distinction. -/
def parseNumber : List Char → Option (JValue × List Char)
  | [] => none
  | c :: rest =>
      if c = '-' then (parseNumBody rest).map (fun p => (applyNeg p.1, p.2))
      else parseNumBody (c :: rest)

/-- A scalar JSON value: string, true, false or integer. -/
def parseJValue (fuel : Nat) : List Char → Option (JValue × List Char)
  | [] => none
  | c :: cs =>
    if c = '"' then (parseStringBody fuel cs).map (fun p => (.str ⟨p.1⟩, p.2))
    else if c = 't' then
      match cs with
      | 'r' :: 'u' :: 'e' :: r => some (.bool true, r)
      | _ => none
    else if c = 'f' then
      match cs with
      | 'a' :: 'l' :: 's' :: 'e' :: r => some (.bool false, r)
      | _ => none
    else parseNumber (c :: cs)

/-- The items of a nonempty JSON object, after the opening brace; consumes the
closing brace. -/
def parseItems : Nat → List Char → Option (List (String × JValue) × List Char)
  | 0, _ => none
  | fuel + 1, input =>
    match parseString (fuel + 1) (skipWs input) with
    | none => none
    | some (k, r1) =>
      match skipWs r1 with
      | [] => none
      | c :: r2 =>
        if c = ':' then
          match parseJValue (fuel + 1) (skipWs r2) with
          | none => none
          | some (v, r3) =>
            match skipWs r3 with
            | [] => none
            | c2 :: r4 =>
              if c2 = ',' then (parseItems fuel r4).map (fun p => ((k, v) :: p.1, p.2))
              else if c2 = rbrace then some ([(k, v)], r4)
              else none
        else none

/-- A JSON object document. -/
def parseObject (fuel : Nat) : List Char → Option (List (String × JValue) × List Char)
  | c :: cs =>
      if c = lbrace then
        match skipWs cs with
        | d :: ds => if d = rbrace then some ([], ds) else parseItems fuel (skipWs cs)
        | [] => none
      else none
  | [] => none

/-- Models json.loads on an object-of-scalars document: parses the object and
requires only whitespace to remain. -/
def loads (s : String) : Option (List (String × JValue)) :=
  match parseObject s.data.length (skipWs s.data) with
  | some (m, rest) => if skipWs rest = [] then some m else none
  | none => none

/-! ## Validation engine (validation_engine.py) -/

/-- The Severity enumeration. -/
inductive Severity where
  | error
  | warning
deriving DecidableEq, Repr

/-- The Severity constructor on a string value: the Enum call Severity(s)
returns a member for "error" or "warning" and raises ValueError otherwise,
modelled as none. -/
def Severity.ofString : String → Option Severity := fun s =>
  if s = "error" then some .error
  else if s = "warning" then some .warning
  else none

/-- ValidationMessage dataclass. -/
structure ValidationMessage where
  rule_id : String
  severity : Severity
  message : String
deriving DecidableEq, Repr

/-- ValidationResult dataclass. -/
structure ValidationResult where
  is_valid : Bool
  messages : List ValidationMessage
deriving DecidableEq, Repr

/-- The errors property of ValidationResult. -/
def ValidationResult.errors (r : ValidationResult) : List ValidationMessage :=
  r.messages.filter (fun m => m.severity == Severity.error)

/-- The warnings property of ValidationResult. -/
def ValidationResult.warnings (r : ValidationResult) : List ValidationMessage :=
  r.messages.filter (fun m => m.severity == Severity.warning)

/-- A rule dict from piece_catalog.json; each key may be absent, the source
reads every field through dict.get with a default. -/
structure RuleDict where
  rule_id : Option String
  expression : Option String
  severity : Option String
  message : Option String
deriving DecidableEq, Repr

namespace ValidationEngine

/-- The rule loop of ValidationEngine.validate, accumulating messages in rule
order.  The expression evaluation (a restricted Python eval) is abstracted as
evalExpr, returning the truthiness of the result or the exception text; the
except branch of the source catches that fault.  The Severity construction
happens outside the try block, so a severity string outside the enumeration
raises out of validate, modelled as none. -/
def validateLoop {π : Type} (evalExpr : String → π → Except String Bool)
    (parameters : π) : List RuleDict → Option (List ValidationMessage)
  | [] => some []
  | rule :: rest =>
    let rid := rule.rule_id.getD "UNKNOWN"
    let expr := rule.expression.getD "True"
    match Severity.ofString (rule.severity.getD "error") with
    | none => none
    | some sev =>
      let msg := rule.message.getD "Validation failed."
      let m : Option ValidationMessage :=
        match evalExpr expr parameters with
        | .error exc =>
            some ⟨rid, .error, "[Error evaluando regla: " ++ exc ++ "] " ++ msg⟩
        | .ok true => none
        | .ok false => some ⟨rid, sev, msg⟩
      (validateLoop evalExpr parameters rest).map (fun ms => m.toList ++ ms)

/-- ValidationEngine.validate: run all rules, then set is_valid to the absence
of error severity messages. -/
def validate {π : Type} (evalExpr : String → π → Except String Bool)
    (parameters : π) (rules : List RuleDict) : Option ValidationResult :=
  (validateLoop evalExpr parameters rules).map (fun messages =>
    ⟨!messages.any (fun m => m.severity == Severity.error), messages⟩)

end ValidationEngine

/-! ## Data model (models.py) -/

/-- The Design ORM row. -/
structure Design where
  id : Nat
  piece_type_id : Nat
  name : String
  description : Option String
  drawing_number : Option String
  created_at : String
  updated_at : String
deriving DecidableEq, Repr

/-- The PieceType ORM row. -/
structure PieceType where
  id : Nat
  code : String
  display_name : String
  discipline : String
  category : String
  description : Option String
  catalog_version : String
  is_active : Nat
  created_at : String
  updated_at : String
deriving DecidableEq, Repr

/-- The Revision ORM row.  generated_at is modelled as a tick of a monotone
logical clock instead of a wall clock ISO string, so that ordering by
generated_at coincides with creation order. -/
structure Revision where
  id : Nat
  design_id : Nat
  revision_code : String
  parameters_json : String
  description : Option String
  generated_at : Nat
  generated_by : String
  fcstd_path : Option String
  step_path : Option String
  dxf_path : Option String
  pdf_path : Option String
  bom_xlsx_path : Option String
  bom_pdf_path : Option String
  eco_number : Option String
  eco_reason : Option String
  eco_status : String
  validation_passed : Nat
  validation_warnings_json : Option String
deriving DecidableEq, Repr

/-- The parameters property getter: json.loads of the stored text.  Reading a
text that is not a JSON object of scalars is a raised fault, modelled as
none. -/
def Revision.parameters (rev : Revision) : Option (List (String × JValue)) :=
  loads rev.parameters_json

/-- The parameters property setter: stores json.dumps(value,
ensure_ascii=False). -/
def Revision.setParameters (rev : Revision) (value : List (String × JValue)) : Revision :=
  { rev with parameters_json := dumps value }

/-! ## RevisionRepository (repositories.py) -/

namespace RevisionRepository

/-- get_by_design: the revisions of one design ordered by generated_at
ascending.  The store list is kept in insertion order and generated_at is
assigned from a monotone clock, so the ordered query is the filter of the
insertion ordered list. -/
def get_by_design (revs : List Revision) (design_id : Nat) : List Revision :=
  revs.filter (fun r => r.design_id == design_id)

/-- get_next_revision_code: "A" for a design without revisions, else the
increment of the code of the most recently created revision. -/
def get_next_revision_code (revs : List Revision) (design_id : Nat) : String :=
  match (get_by_design revs design_id).getLast? with
  | none => "A"
  | some r => increment_revision_code r.revision_code

/-- The autoincrement primary key: one more than the largest id in the
store. -/
def nextRevisionId (revs : List Revision) : Nat :=
  (revs.map Revision.id).foldr max 0 + 1

/-- The row constructed by RevisionRepository.create before it is added to the
session: next code, serialized parameters, draft status, defaults from the
model. -/
def newRevision (revs : List Revision) (design_id : Nat)
    (parameters : List (String × JValue)) (description : String)
    (generated_by : String) (now : Nat) : Revision :=
  { id := nextRevisionId revs
    design_id := design_id
    revision_code := get_next_revision_code revs design_id
    parameters_json := dumps parameters
    description := some description
    generated_at := now
    generated_by := generated_by
    fcstd_path := none
    step_path := none
    dxf_path := none
    pdf_path := none
    bom_xlsx_path := none
    bom_pdf_path := none
    eco_number := none
    eco_reason := none
    eco_status := "draft"
    validation_passed := 0
    validation_warnings_json := none }

/-- RevisionRepository.create: construct the next revision and append it to
the store. -/
def create (revs : List Revision) (design_id : Nat)
    (parameters : List (String × JValue)) (description : String)
    (generated_by : String) (now : Nat) : List Revision × Revision :=
  let rev := newRevision revs design_id parameters description generated_by now
  (revs ++ [rev], rev)

/-- RevisionRepository.update_eco_status: raises ValueError (the
InvalidStatusError of the spec) before touching the store when the status is
outside the enumeration; otherwise updates eco_status and, when supplied,
eco_number and eco_reason of the revision with that id. -/
def update_eco_status (revs : List Revision) (revision_id : Nat) (status : String)
    (eco_number : Option String) (eco_reason : Option String) :
    Except String (List Revision) :=
  if status = "draft" ∨ status = "issued" ∨ status = "obsolete" then
    .ok (revs.map (fun rev =>
      if rev.id == revision_id then
        { rev with
            eco_status := status
            eco_number := match eco_number with
              | some n => some n
              | none => rev.eco_number
            eco_reason := match eco_reason with
              | some r => some r
              | none => rev.eco_reason }
      else rev))
  else .error ("eco_status must be one of draft|issued|obsolete, got " ++ status)

/-- The paths dict argument of update_output_paths, read through dict.get on
the six artifact keys. -/
structure OutputPaths where
  fcstd : Option String
  step : Option String
  dxf : Option String
  pdf : Option String
  bom_xlsx : Option String
  bom_pdf : Option String
deriving DecidableEq, Repr

/-- RevisionRepository.update_output_paths: assigns all six artifact path
columns of the revision with that id from the dict, absent keys giving
None. -/
def update_output_paths (revs : List Revision) (revision_id : Nat)
    (paths : OutputPaths) : List Revision :=
  revs.map (fun rev =>
    if rev.id == revision_id then
      { rev with
          fcstd_path := paths.fcstd
          step_path := paths.step
          dxf_path := paths.dxf
          pdf_path := paths.pdf
          bom_xlsx_path := paths.bom_xlsx
          bom_pdf_path := paths.bom_pdf }
    else rev)

end RevisionRepository

/-! ## Generation orchestrator (piece_controller.py) -/

/-- GenerationRequest dataclass. -/
structure GenerationRequest where
  design_id : Nat
  parameters : List (String × JValue)
  description : String
deriving DecidableEq, Repr

/-- GenerationResult dataclass of the CAD engine boundary (base_engine.py);
elapsed_seconds is modelled as a rational. -/
structure GenerationResult where
  success : Bool
  fcstd_path : Option String
  step_path : Option String
  error_message : Option String
  warnings : List String
  elapsed_seconds : ℚ
deriving DecidableEq, Repr

/-- GenerationResponse dataclass. -/
structure GenerationResponse where
  success : Bool
  revision_id : Option Nat
  revision_code : Option String
  output_dir : Option String
  errors : List String
  warnings : List String
  elapsed_seconds : ℚ
deriving DecidableEq, Repr

/-- The read only surroundings of one generate call: the designs and piece
types tables, the catalog rule lookup, the restricted expression evaluator
and the external CAD engine. -/
structure GenEnv where
  designs : List Design
  piece_types : List PieceType
  rules_for : String → List RuleDict
  eval_expr : String → List (String × JValue) → Except String Bool
  outputs_dir : String
  engine : String → List (String × JValue) → String → String → GenerationResult

/-- The mutable store state threaded through generate: the revisions table
and the logical clock feeding generated_at. -/
structure GenState where
  revisions : List Revision
  now : Nat
deriving DecidableEq, Repr

/-- Models re.sub of non word, non hyphen characters by underscore on the
design name (ASCII subset). -/
def safeName (s : String) : String :=
  ⟨s.data.map (fun c => if c.isAlphanum || c = '_' || c = '-' then c else '_')⟩

/-- Python truthiness or on an optional string: None and the empty string
both fall through to the default. -/
def pyStrOr (o : Option String) (d : String) : String :=
  match o with
  | some s => if s = "" then d else s
  | none => d

/-- The deterministic output directory outputs_dir/piece_code/safe_name/rev. -/
def outputDirFor (outputs_dir piece_code design_name revision_code : String) : String :=
  outputs_dir ++ "/" ++ piece_code ++ "/" ++ safeName design_name ++ "/" ++ revision_code

/-- PieceController.generate: resolve, validate, record, generate, reconcile,
respond.  A raised fault (the invalid severity ValueError of the validation
engine) propagates out, modelled as none. -/
def generate (env : GenEnv) (st : GenState) (request : GenerationRequest) :
    Option (GenState × GenerationResponse) :=
  match env.designs.find? (fun d => d.id == request.design_id) with
  | none => some (st, ⟨false, none, none, none, ["Diseño no encontrado."], [], 0⟩)
  | some design =>
    match env.piece_types.find? (fun p => p.id == design.piece_type_id) with
    | none => some (st, ⟨false, none, none, none, ["Tipo de pieza no encontrado."], [], 0⟩)
    | some piece_type =>
      let piece_code := piece_type.code
      let design_name := design.name
      let rules := env.rules_for piece_code
      match ValidationEngine.validate env.eval_expr request.parameters rules with
      | none => none
      | some validation =>
        if validation.is_valid = false then
          some (st, ⟨false, none, none, none,
            validation.errors.map ValidationMessage.message,
            validation.warnings.map ValidationMessage.message, 0⟩)
        else
          let warning_msgs := validation.warnings.map ValidationMessage.message
          let rev0 := RevisionRepository.newRevision st.revisions request.design_id
            request.parameters request.description "Fede" st.now
          let rev := { rev0 with
            validation_passed := 1
            validation_warnings_json :=
              if warning_msgs.isEmpty then none else some (dumpsStrList warning_msgs) }
          let revs2 := st.revisions ++ [rev]
          let revision_id := rev.id
          let revision_code := rev.revision_code
          let output_dir := outputDirFor env.outputs_dir piece_code design_name revision_code
          let cad_result := env.engine piece_code request.parameters output_dir revision_code
          let revs3 :=
            if cad_result.success then
              RevisionRepository.update_output_paths revs2 revision_id
                ⟨cad_result.fcstd_path, cad_result.step_path, none, none, none, none⟩
            else revs2
          let st2 : GenState := ⟨revs3, st.now + 1⟩
          let all_warnings := warning_msgs ++ cad_result.warnings
          if cad_result.success then
            some (st2, ⟨true, some revision_id, some revision_code, some output_dir,
              [], all_warnings, cad_result.elapsed_seconds⟩)
          else
            some (st2, ⟨false, some revision_id, some revision_code, some output_dir,
              [pyStrOr cad_result.error_message "Error desconocido en el motor CAD."],
              all_warnings, cad_result.elapsed_seconds⟩)

/-- One generate invocation of a sequence: its request payload and the engine
behaviour during that invocation. -/
structure Invocation where
  parameters : List (String × JValue)
  description : String
  engine : String → List (String × JValue) → String → String → GenerationResult

/-- A sequence of generate invocations against one design, threading the
store state; a raised fault stops the run. -/
def runGenerations (env : GenEnv) (design_id : Nat) :
    GenState → List Invocation → Option GenState
  | st, [] => some st
  | st, inv :: rest =>
    match generate { env with engine := inv.engine } st
        ⟨design_id, inv.parameters, inv.description⟩ with
    | none => none
    | some (st2, _) => runGenerations env design_id st2 rest

/-! ## Specification side definitions used by the claims -/

/-- The message one rule contributes, stated from the specification: an
evaluation fault gives a forced error with a composite message embedding the
fault and the declared message; a falsy result gives the declared severity
and message; a truthy result gives nothing. -/
def expectedMessage {π : Type} (evalExpr : String → π → Except String Bool)
    (parameters : π) (rule : RuleDict) : Option ValidationMessage :=
  let rid := rule.rule_id.getD "UNKNOWN"
  let msg := rule.message.getD "Validation failed."
  let sev := (Severity.ofString (rule.severity.getD "error")).getD Severity.error
  match evalExpr (rule.expression.getD "True") parameters with
  | .error exc => some ⟨rid, .error, "[Error evaluando regla: " ++ exc ++ "] " ++ msg⟩
  | .ok true => none
  | .ok false => some ⟨rid, sev, msg⟩

/-- The revision codes of one design in creation order. -/
def codesFor (revs : List Revision) (design_id : Nat) : List String :=
  (RevisionRepository.get_by_design revs design_id).map Revision.revision_code

/-- The first N terms of the specification sequence A, B, ..., Z, AA, ... -/
def specCodes (N : Nat) : List String :=
  (List.range N).map (fun k => codeOfNat (k + 1))

/-- From the claim on update_eco_status: new is old with eco_status set, the
ECO number and reason set when supplied, and every other field untouched. -/
def ecoOnlyUpdate (old new : Revision) (status : String)
    (num reas : Option String) : Prop :=
  new.eco_status = status ∧
  new.eco_number = (if num.isSome then num else old.eco_number) ∧
  new.eco_reason = (if reas.isSome then reas else old.eco_reason) ∧
  new.id = old.id ∧ new.design_id = old.design_id ∧
  new.revision_code = old.revision_code ∧
  new.parameters_json = old.parameters_json ∧ new.description = old.description ∧
  new.generated_at = old.generated_at ∧ new.generated_by = old.generated_by ∧
  new.fcstd_path = old.fcstd_path ∧ new.step_path = old.step_path ∧
  new.dxf_path = old.dxf_path ∧ new.pdf_path = old.pdf_path ∧
  new.bom_xlsx_path = old.bom_xlsx_path ∧ new.bom_pdf_path = old.bom_pdf_path ∧
  new.validation_passed = old.validation_passed ∧
  new.validation_warnings_json = old.validation_warnings_json

/-- From the claim on update_output_paths: new is old with all six artifact
path fields taken from the paths mapping (absent entries clearing the field)
and every other field untouched. -/
def pathsOnlyUpdate (old new : Revision) (paths : RevisionRepository.OutputPaths) : Prop :=
  new.fcstd_path = paths.fcstd ∧ new.step_path = paths.step ∧
  new.dxf_path = paths.dxf ∧ new.pdf_path = paths.pdf ∧
  new.bom_xlsx_path = paths.bom_xlsx ∧ new.bom_pdf_path = paths.bom_pdf ∧
  new.id = old.id ∧ new.design_id = old.design_id ∧
  new.revision_code = old.revision_code ∧
  new.parameters_json = old.parameters_json ∧ new.description = old.description ∧
  new.generated_at = old.generated_at ∧ new.generated_by = old.generated_by ∧
  new.eco_number = old.eco_number ∧ new.eco_reason = old.eco_reason ∧
  new.eco_status = old.eco_status ∧
  new.validation_passed = old.validation_passed ∧
  new.validation_warnings_json = old.validation_warnings_json

end PyParamCad

/-! ## Concrete sample data used by witnesses and counterexamples -/

namespace PyParamCad

/-- A concrete stored revision with lowercase code z, used by the C5
witness. -/
def sampleRevZ : Revision :=
  { id := 1, design_id := 1, revision_code := "z", parameters_json := "",
    description := none, generated_at := 0, generated_by := "Fede",
    fcstd_path := none, step_path := none, dxf_path := none, pdf_path := none,
    bom_xlsx_path := none, bom_pdf_path := none, eco_number := none,
    eco_reason := none, eco_status := "draft", validation_passed := 0,
    validation_warnings_json := none }

/-- A fault raising evaluator used by the validation witnesses. -/
def sampleEval : String → Unit → Except String Bool := fun s _ =>
  if s = "bad" then Except.error "division by zero"
  else if s = "no" then Except.ok false
  else Except.ok true

/-- A design and piece type pair used by the orchestrator witnesses. -/
def sampleDesign : Design :=
  { id := 1, piece_type_id := 7, name := "Base Plate", description := none,
    drawing_number := none, created_at := "", updated_at := "" }

/-- The piece type of sampleDesign. -/
def samplePieceType : PieceType :=
  { id := 7, code := "base_plate", display_name := "Base plate",
    discipline := "mech", category := "plate", description := none,
    catalog_version := "1.0", is_active := 1, created_at := "", updated_at := "" }

/-- An environment whose single rule always fails with error severity. -/
def sampleEnvInvalid : GenEnv :=
  { designs := [sampleDesign], piece_types := [samplePieceType]
    rules_for := fun _ => [⟨some "VR-1", some "espesor >= 4.0", some "error", some "too thin"⟩]
    eval_expr := fun _ _ => Except.ok false
    outputs_dir := "outputs"
    engine := fun _ _ _ _ => ⟨true, none, none, none, [], 0⟩ }

/-- An environment whose engine fails reporting an empty error message. -/
def sampleEnvEmptyErr : GenEnv :=
  { designs := [sampleDesign], piece_types := [samplePieceType]
    rules_for := fun _ => []
    eval_expr := fun _ _ => Except.ok true
    outputs_dir := "outputs"
    engine := fun _ _ _ _ => ⟨false, none, none, some "", [], 0⟩ }

/-- An environment with an always succeeding engine, used by the C1
witness. -/
def sampleEnvGen : GenEnv :=
  { designs := [sampleDesign], piece_types := [samplePieceType]
    rules_for := fun _ => []
    eval_expr := fun _ _ => Except.ok true
    outputs_dir := "outputs"
    engine := fun _ _ _ _ => ⟨true, some "m.fcstd", some "m.step", none, [], 0⟩ }

end PyParamCad

/-! # Theorems -/

namespace PyParamCad

/-! ## The allocator computes the bijective base-26 successor -/

theorem revRepAux_fuel (f1 : Nat) : ∀ (f2 n : Nat), n ≤ f1 → n ≤ f2 →
    revRepAux f1 n = revRepAux f2 n := by
  induction f1 with
  | zero =>
    intro f2 n h1 _
    interval_cases n
    cases f2 <;> simp [revRepAux]
  | succ f ih =>
    intro f2 n h1 h2
    match n, f2 with
    | 0, f2 => cases f2 <;> simp [revRepAux]
    | m + 1, 0 => omega
    | m + 1, g + 1 =>
      simp only [revRepAux]
      have hm : m / 26 ≤ f := by omega
      have hg : m / 26 ≤ g := by omega
      rw [ih f (m / 26) hm hm, ih g (m / 26) hm hg]

theorem revRep_succ (n : Nat) :
    revRep (n + 1) = ⟨n % 26, by omega⟩ :: revRep (n / 26) := by
  show revRepAux (n + 1) (n + 1) = _
  simp only [revRepAux]
  rw [revRepAux_fuel n (n / 26) (n / 26) (by omega) (by omega)]
  rfl

theorem valRev_revRep (n : Nat) : valRev (revRep n) = n := by
  induction n using Nat.strong_induction_on with
  | _ n ih =>
    match n with
    | 0 => rfl
    | m + 1 =>
      rw [revRep_succ, valRev, ih (m / 26) (by omega)]
      show m % 26 + 1 + 26 * (m / 26) = m + 1
      omega

theorem valRev_incDigitsRev (ds : List (Fin 26)) :
    valRev (incDigitsRev ds) = valRev ds + 1 := by
  induction ds with
  | nil => rfl
  | cons d rest ih =>
    by_cases h : d.val = 25
    · simp only [incDigitsRev, h, if_pos, valRev, ih]
      omega
    · have hd := d.isLt
      simp only [incDigitsRev, h, if_neg, valRev]
      omega

theorem valRev_inj : ∀ (ds es : List (Fin 26)), valRev ds = valRev es → ds = es := by
  intro ds
  induction ds with
  | nil =>
    intro es h
    cases es with
    | nil => rfl
    | cons e es =>
      exfalso
      simp only [valRev] at h
      omega
  | cons d rest ih =>
    intro es h
    cases es with
    | nil =>
      exfalso
      simp only [valRev] at h
      omega
    | cons e es =>
      simp only [valRev] at h
      have hd := d.isLt
      have he := e.isLt
      have h1 : d.val = e.val ∧ valRev rest = valRev es := by omega
      have h2 : d = e := Fin.ext h1.1
      rw [h2, ih es h1.2]

theorem incDigitsRev_revRep (n : Nat) :
    incDigitsRev (revRep (n + 1)) = revRep (n + 2) := by
  apply valRev_inj
  rw [valRev_incDigitsRev, valRev_revRep, valRev_revRep]

theorem charOfDigit_toUpper : ∀ d : Fin 26, (charOfDigit d).toUpper = charOfDigit d := by
  decide

theorem charOfDigit_eq_Z_iff : ∀ d : Fin 26, charOfDigit d = 'Z' ↔ d.val = 25 := by
  decide

theorem charOfDigit_succ : ∀ d : Fin 26, ¬d.val = 25 →
    Char.ofNat ((charOfDigit d).toNat + 1) = charOfDigit ⟨(d.val + 1) % 26, by omega⟩ := by
  decide

theorem charOfDigit_inj : ∀ d e : Fin 26, charOfDigit d = charOfDigit e → d = e := by
  decide

theorem charOfDigit_range : ∀ d : Fin 26,
    65 ≤ (charOfDigit d).toNat ∧ (charOfDigit d).toNat ≤ 90 := by
  decide

theorem incRev_map (ds : List (Fin 26)) :
    incRev (ds.map charOfDigit) = (incDigitsRev ds).map charOfDigit := by
  induction ds with
  | nil => decide
  | cons d rest ih =>
    by_cases h : d.val = 25
    · have hz : charOfDigit d = 'Z' := (charOfDigit_eq_Z_iff d).mpr h
      simp [incRev, incDigitsRev, hz, h, ih]
      decide
    · have hz : ¬charOfDigit d = 'Z' := fun hc => h ((charOfDigit_eq_Z_iff d).mp hc)
      simp [incRev, incDigitsRev, hz, h, ih, charOfDigit_succ d h]

theorem strUpper_codeOfNat (n : Nat) : strUpper (codeOfNat n) = codeOfNat n := by
  simp only [strUpper, codeOfNat, List.map_reverse, List.map_map]
  congr 2
  exact List.map_congr_left (fun d _ => charOfDigit_toUpper d)

theorem incRev_data_reverse (n : Nat) :
    incRev ((codeOfNat (n + 1)).data.reverse) = (codeOfNat (n + 2)).data.reverse := by
  show incRev ((((revRep (n + 1)).map charOfDigit).reverse).reverse) =
    (((revRep (n + 2)).map charOfDigit).reverse).reverse
  rw [List.reverse_reverse, List.reverse_reverse, incRev_map, incDigitsRev_revRep]

theorem increment_eq_of_upper (s : String) (n : Nat) (h : strUpper s = codeOfNat (n + 1)) :
    increment_revision_code s = codeOfNat (n + 2) := by
  unfold increment_revision_code
  rw [h, incRev_data_reverse, List.reverse_reverse]

theorem increment_codeOfNat (n : Nat) :
    increment_revision_code (codeOfNat (n + 1)) = codeOfNat (n + 2) :=
  increment_eq_of_upper _ n (strUpper_codeOfNat _)

theorem codeOfNat_inj (m n : Nat) (h : codeOfNat m = codeOfNat n) : m = n := by
  have hd : ((revRep m).map charOfDigit).reverse = ((revRep n).map charOfDigit).reverse :=
    congrArg String.data h
  have h2 : (revRep m).map charOfDigit = (revRep n).map charOfDigit := by
    have h3 := congrArg List.reverse hd
    simpa using h3
  have h3 : revRep m = revRep n :=
    List.map_injective_iff.mpr (fun a b hab => charOfDigit_inj a b hab) h2
  calc m = valRev (revRep m) := (valRev_revRep m).symm
    _ = valRev (revRep n) := by rw [h3]
    _ = n := valRev_revRep n

theorem codeOfNat_chars (n : Nat) :
    ∀ c ∈ (codeOfNat n).data, 65 ≤ c.toNat ∧ c.toNat ≤ 90 := by
  intro c hc
  simp only [codeOfNat, List.mem_reverse, List.mem_map] at hc
  obtain ⟨d, _, rfl⟩ := hc
  exact charOfDigit_range d

theorem get_next_code_of_last (revs : List Revision) (did n : Nat) (r : Revision)
    (hlast : (RevisionRepository.get_by_design revs did).getLast? = some r)
    (hcode : strUpper r.revision_code = codeOfNat (n + 1)) :
    RevisionRepository.get_next_revision_code revs did = codeOfNat (n + 2) := by
  unfold RevisionRepository.get_next_revision_code
  rw [hlast]
  exact increment_eq_of_upper _ n hcode

theorem get_next_code_empty (revs : List Revision) (did : Nat)
    (h : RevisionRepository.get_by_design revs did = []) :
    RevisionRepository.get_next_revision_code revs did = "A" := by
  unfold RevisionRepository.get_next_revision_code
  rw [h]
  rfl

/-- C5: the allocator returns A for an empty history and otherwise the
bijective base-26 successor of the most recently created code: the last code,
uppercased, is the (n+1)-st term of the alphabetic sequence, and the
allocated code is the (n+2)-nd term; the output is uppercase A-Z, and the
listed carry examples hold. -/
theorem c5_revision_code_allocator (revs : List Revision) (did n : Nat) (r : Revision)
    (hlast : (RevisionRepository.get_by_design revs did).getLast? = some r)
    (hcode : strUpper r.revision_code = codeOfNat (n + 1)) :
    RevisionRepository.get_next_revision_code revs did = codeOfNat (n + 2) ∧
    (∀ (revs2 : List Revision) (did2 : Nat),
        RevisionRepository.get_by_design revs2 did2 = [] →
        RevisionRepository.get_next_revision_code revs2 did2 = "A") ∧
    (∀ c ∈ (RevisionRepository.get_next_revision_code revs did).data,
        65 ≤ c.toNat ∧ c.toNat ≤ 90) ∧
    increment_revision_code "Z" = "AA" ∧
    increment_revision_code "AZ" = "BA" ∧
    increment_revision_code "ZZ" = "AAA" ∧
    increment_revision_code "az" = "BA" := by
  refine ⟨get_next_code_of_last revs did n r hlast hcode,
    fun revs2 did2 h => get_next_code_empty revs2 did2 h, ?_,
    by decide, by decide, by decide, by decide⟩
  rw [get_next_code_of_last revs did n r hlast hcode]
  exact codeOfNat_chars _


/-- Witness for C5 at a one revision history with lowercase code z: the
allocator returns the 27th term AA. -/
theorem c5_revision_code_allocator_witness :
    RevisionRepository.get_next_revision_code [sampleRevZ] 1 = codeOfNat 27 ∧
    codeOfNat 27 = "AA" :=
  ⟨(c5_revision_code_allocator [sampleRevZ] 1 25 sampleRevZ
      (by decide) (by decide)).1, by decide⟩

/-! ## Validation engine lemmas -/

theorem validateLoop_none {π : Type} (e : String → π → Except String Bool) (p : π) :
    ∀ rules : List RuleDict,
      (∃ r ∈ rules, Severity.ofString (r.severity.getD "error") = none) →
      ValidationEngine.validateLoop e p rules = none := by
  intro rules
  induction rules with
  | nil => intro h; simp at h
  | cons rule rest ih =>
    intro h
    cases hs : Severity.ofString (rule.severity.getD "error") with
    | none => simp [ValidationEngine.validateLoop, hs]
    | some sev =>
      obtain ⟨r, hr, hrn⟩ := h
      rcases List.mem_cons.mp hr with rfl | hmem
      · rw [hs] at hrn
        exact absurd hrn (by simp)
      · simp [ValidationEngine.validateLoop, hs, ih ⟨r, hmem, hrn⟩]

theorem validateLoop_some {π : Type} (e : String → π → Except String Bool) (p : π) :
    ∀ rules : List RuleDict,
      (∀ r ∈ rules, Severity.ofString (r.severity.getD "error") ≠ none) →
      ValidationEngine.validateLoop e p rules =
        some (rules.filterMap (expectedMessage e p)) := by
  intro rules h
  induction rules with
  | nil => rfl
  | cons rule rest ih =>
    obtain ⟨sev, hsev⟩ := Option.ne_none_iff_exists'.mp (h rule (List.mem_cons_self rule rest))
    have hrest := ih (fun r hr => h r (List.mem_cons_of_mem rule hr))
    cases he : e (rule.expression.getD "True") p with
    | error exc =>
      simp [ValidationEngine.validateLoop, hsev, hrest, he,
        expectedMessage, List.filterMap_cons]
    | ok b =>
      cases b <;>
        simp [ValidationEngine.validateLoop, hsev, hrest, he,
          expectedMessage, List.filterMap_cons]

theorem validate_some {π : Type} (e : String → π → Except String Bool) (p : π)
    (rules : List RuleDict)
    (h : ∀ r ∈ rules, Severity.ofString (r.severity.getD "error") ≠ none) :
    ValidationEngine.validate e p rules =
      some ⟨!(rules.filterMap (expectedMessage e p)).any
              (fun m => m.severity == Severity.error),
            rules.filterMap (expectedMessage e p)⟩ := by
  simp [ValidationEngine.validate, validateLoop_some e p rules h]

theorem validate_is_valid {π : Type} (e : String → π → Except String Bool) (p : π)
    (rules : List RuleDict) (res : ValidationResult)
    (h : ValidationEngine.validate e p rules = some res) :
    res.is_valid = !res.messages.any (fun m => m.severity == Severity.error) := by
  unfold ValidationEngine.validate at h
  cases hl : ValidationEngine.validateLoop e p rules with
  | none => rw [hl] at h; simp at h
  | some msgs =>
    rw [hl] at h
    simp only [Option.map_some', Option.some.injEq] at h
    rw [← h]

/-- C3: is_valid is true exactly when no recorded message has error severity
(warnings alone never flip validity), and validation of an empty rule list is
valid with no messages. -/
theorem c3_validity_definition {π : Type} (e : String → π → Except String Bool) (p : π)
    (rules : List RuleDict) (res : ValidationResult)
    (h : ValidationEngine.validate e p rules = some res) :
    (res.is_valid = true ↔
        (res.messages.filter (fun m => m.severity == Severity.error)).length = 0) ∧
    ValidationEngine.validate e p ([] : List RuleDict) = some ⟨true, []⟩ := by
  constructor
  · rw [validate_is_valid e p rules res h]
    simp [List.length_eq_zero, List.filter_eq_nil_iff, List.any_eq_false]
  · rfl

/-- Witness for C3 at a trivial evaluator and empty rule list. -/
theorem c3_validity_definition_witness :
    (((⟨true, []⟩ : ValidationResult).is_valid = true ↔
        ((⟨true, []⟩ : ValidationResult).messages.filter
          (fun m => m.severity == Severity.error)).length = 0) ∧
      ValidationEngine.validate (fun _ (_ : Unit) => Except.ok true) ()
        ([] : List RuleDict) = some ⟨true, []⟩) :=
  c3_validity_definition (fun _ (_ : Unit) => Except.ok true) () [] ⟨true, []⟩ rfl

theorem validate_total_of_sev {π : Type} (e : String → π → Except String Bool) (p : π)
    (rules : List RuleDict)
    (h : ∀ r ∈ rules, r.severity.getD "error" = "error" ∨
        r.severity.getD "error" = "warning") :
    ∃ res, ValidationEngine.validate e p rules = some res ∧
      res.messages = rules.filterMap (expectedMessage e p) := by
  have h2 : ∀ r ∈ rules, Severity.ofString (r.severity.getD "error") ≠ none := by
    intro r hr
    rcases h r hr with hv | hv <;> simp [Severity.ofString, hv]
  exact ⟨_, validate_some e p rules h2, rfl⟩

/-- C4: with every declared severity inside the enumeration, validate returns
a result (faults never propagate) whose message list is exactly, in rule
order, the per rule expected message: composite forced error on evaluator
fault, declared severity and message on falsy, nothing on truthy. -/
theorem c4_per_rule_behaviour {π : Type} (e : String → π → Except String Bool) (p : π)
    (rules : List RuleDict)
    (h : ∀ r ∈ rules, r.severity.getD "error" = "error" ∨
        r.severity.getD "error" = "warning") :
    ∃ res, ValidationEngine.validate e p rules = some res ∧
      res.messages = rules.filterMap (expectedMessage e p) :=
  validate_total_of_sev e p rules h


/-- Witness for C4 on three rules exercising the fault, falsy and truthy
branches. -/
theorem c4_per_rule_behaviour_witness :
    ∃ res, ValidationEngine.validate sampleEval ()
        [⟨some "VR-1", some "bad", some "warning", some "m1"⟩,
         ⟨some "VR-2", some "no", some "warning", some "m2"⟩,
         ⟨some "VR-3", some "yes", some "error", some "m3"⟩] = some res ∧
      res.messages =
        [⟨some "VR-1", some "bad", some "warning", some "m1"⟩,
         ⟨some "VR-2", some "no", some "warning", some "m2"⟩,
         ⟨some "VR-3", some "yes", some "error", some "m3"⟩].filterMap
          (expectedMessage sampleEval ()) :=
  c4_per_rule_behaviour sampleEval () _ (by decide)

/-- C10: a rule list containing a rule whose severity string is outside
error and warning makes validate raise (return none), and validate is total
when every rule severity is inside the enumeration. -/
theorem c10_invalid_severity_raises {π : Type} (e : String → π → Except String Bool)
    (p : π) :
    (∀ (rules : List RuleDict) (r : RuleDict) (s : String), r ∈ rules →
        r.severity = some s → s ≠ "error" → s ≠ "warning" →
        ValidationEngine.validate e p rules = none) ∧
    (∀ rules : List RuleDict,
        (∀ r ∈ rules, r.severity.getD "error" = "error" ∨
            r.severity.getD "error" = "warning") →
        ∃ res, ValidationEngine.validate e p rules = some res) := by
  constructor
  · intro rules r s hr hs hserr hswarn
    have hnone : Severity.ofString (r.severity.getD "error") = none := by
      rw [hs]
      simp [Severity.ofString, hserr, hswarn]
    simp [ValidationEngine.validate, validateLoop_none e p rules ⟨r, hr, hnone⟩]
  · intro rules h
    obtain ⟨res, hres, _⟩ := validate_total_of_sev e p rules h
    exact ⟨res, hres⟩

/-- Witness for C10: a severity string fatal raises, and the empty rule list
is total. -/
theorem c10_invalid_severity_raises_witness :
    ValidationEngine.validate sampleEval ()
      [⟨some "R1", some "x", some "fatal", some "m"⟩] = none ∧
    (∃ res, ValidationEngine.validate sampleEval () ([] : List RuleDict) = some res) :=
  ⟨(c10_invalid_severity_raises sampleEval ()).1 _
      ⟨some "R1", some "x", some "fatal", some "m"⟩ "fatal" (by decide) rfl
      (by decide) (by decide),
    (c10_invalid_severity_raises sampleEval ()).2 [] (by decide)⟩

/-! ## Revision store mutation operations -/

theorem get_map_of_lt {α β : Type} (f : α → β) (l : List α) (i : Nat)
    (h1 : i < (l.map f).length) (h2 : i < l.length) :
    (l.map f).get ⟨i, h1⟩ = f (l.get ⟨i, h2⟩) := by
  simp [List.get_eq_getElem, List.getElem_map]

/-- C7: update_eco_status on a status outside draft, issued, obsolete fails
with the invalid status error, raised before any lookup or mutation, so the
store is untouched; on an allowed status the store keeps its length, the
revision with the given id receives the new eco_status (and ECO number and
reason when supplied) with no other field mutated, and every other revision
is unchanged. -/
theorem c7_update_eco_status (revs : List Revision) (rid : Nat) (status : String)
    (num reas : Option String) :
    (status ≠ "draft" → status ≠ "issued" → status ≠ "obsolete" →
      RevisionRepository.update_eco_status revs rid status num reas =
        Except.error ("eco_status must be one of draft|issued|obsolete, got " ++ status)) ∧
    ((status = "draft" ∨ status = "issued" ∨ status = "obsolete") →
      ∃ revs2, RevisionRepository.update_eco_status revs rid status num reas =
          Except.ok revs2 ∧
        revs2.length = revs.length ∧
        ∀ (i : Nat) (h1 : i < revs.length) (h2 : i < revs2.length),
          ((revs.get ⟨i, h1⟩).id = rid →
            ecoOnlyUpdate (revs.get ⟨i, h1⟩) (revs2.get ⟨i, h2⟩) status num reas) ∧
          ((revs.get ⟨i, h1⟩).id ≠ rid → revs2.get ⟨i, h2⟩ = revs.get ⟨i, h1⟩)) := by
  constructor
  · intro h1 h2 h3
    simp [RevisionRepository.update_eco_status, h1, h2, h3]
  · intro hok
    unfold RevisionRepository.update_eco_status
    rw [if_pos hok]
    refine ⟨_, rfl, by simp, ?_⟩
    intro i h1 h2
    rw [get_map_of_lt _ revs i h2 h1]
    simp only [List.get_eq_getElem]
    constructor
    · intro hid
      cases num <;> cases reas <;>
        simp [ecoOnlyUpdate, hid]
    · intro hid
      simp [hid]

/-- Witness for C7: a status outside the enumeration fails, and setting
issued with an ECO number succeeds. -/
theorem c7_update_eco_status_witness :
    RevisionRepository.update_eco_status [sampleRevZ] 1 "approved" none none =
      Except.error "eco_status must be one of draft|issued|obsolete, got approved" ∧
    (∃ revs2, RevisionRepository.update_eco_status [sampleRevZ] 1 "issued"
        (some "ECO-7") none = Except.ok revs2 ∧
      revs2.length = [sampleRevZ].length ∧
      ∀ (i : Nat) (h1 : i < [sampleRevZ].length) (h2 : i < revs2.length),
        (([sampleRevZ].get ⟨i, h1⟩).id = 1 →
          ecoOnlyUpdate ([sampleRevZ].get ⟨i, h1⟩) (revs2.get ⟨i, h2⟩) "issued"
            (some "ECO-7") none) ∧
        (([sampleRevZ].get ⟨i, h1⟩).id ≠ 1 →
          revs2.get ⟨i, h2⟩ = [sampleRevZ].get ⟨i, h1⟩)) :=
  ⟨(c7_update_eco_status [sampleRevZ] 1 "approved" none none).1
      (by decide) (by decide) (by decide),
    (c7_update_eco_status [sampleRevZ] 1 "issued" (some "ECO-7") none).2
      (Or.inr (Or.inl rfl))⟩

/-- C8: update_output_paths keeps the store length; the revision with the
given id has each of the six artifact path fields set to the value in the
paths mapping (absent entries cleared to none) and no other field mutated;
every other revision is unchanged. -/
theorem c8_update_output_paths (revs : List Revision) (rid : Nat)
    (paths : RevisionRepository.OutputPaths) :
    (RevisionRepository.update_output_paths revs rid paths).length = revs.length ∧
    ∀ (i : Nat) (h1 : i < revs.length)
      (h2 : i < (RevisionRepository.update_output_paths revs rid paths).length),
      ((revs.get ⟨i, h1⟩).id = rid →
        pathsOnlyUpdate (revs.get ⟨i, h1⟩)
          ((RevisionRepository.update_output_paths revs rid paths).get ⟨i, h2⟩) paths) ∧
      ((revs.get ⟨i, h1⟩).id ≠ rid →
        (RevisionRepository.update_output_paths revs rid paths).get ⟨i, h2⟩ =
          revs.get ⟨i, h1⟩) := by
  constructor
  · simp [RevisionRepository.update_output_paths]
  · intro i h1 h2
    simp only [RevisionRepository.update_output_paths] at h2 ⊢
    rw [get_map_of_lt _ revs i h2 h1]
    simp only [List.get_eq_getElem]
    constructor
    · intro hid
      simp [pathsOnlyUpdate, hid]
    · intro hid
      simp [hid]

/-! ## Orchestrator: abort on invalid parameters -/

theorem generate_abort (env : GenEnv) (st : GenState) (req : GenerationRequest)
    (design : Design) (piece_type : PieceType) (v : ValidationResult)
    (hd : env.designs.find? (fun d => d.id == req.design_id) = some design)
    (hpt : env.piece_types.find? (fun p => p.id == design.piece_type_id) = some piece_type)
    (hv : ValidationEngine.validate env.eval_expr req.parameters
        (env.rules_for piece_type.code) = some v)
    (hvf : v.is_valid = false) :
    generate env st req = some (st,
      ⟨false, none, none, none, v.errors.map ValidationMessage.message,
        v.warnings.map ValidationMessage.message, 0⟩) := by
  simp only [generate, hd, hpt, hv, hvf]
  rw [if_pos trivial]

/-- C2: when validation of the request parameters records an error severity
message, generate returns the failure response carrying the error and warning
message texts, leaves the store untouched, allocates no revision, and its
outcome does not depend on the external generation engine at all. -/
theorem c2_abort_on_invalid (env : GenEnv) (st : GenState) (req : GenerationRequest)
    (design : Design) (piece_type : PieceType) (v : ValidationResult)
    (hd : env.designs.find? (fun d => d.id == req.design_id) = some design)
    (hpt : env.piece_types.find? (fun p => p.id == design.piece_type_id) = some piece_type)
    (hv : ValidationEngine.validate env.eval_expr req.parameters
        (env.rules_for piece_type.code) = some v)
    (herr : ∃ m ∈ v.messages, m.severity = Severity.error) :
    generate env st req = some (st,
      ⟨false, none, none, none, v.errors.map ValidationMessage.message,
        v.warnings.map ValidationMessage.message, 0⟩) ∧
    (∀ eng1 eng2,
      generate { env with engine := eng1 } st req =
        generate { env with engine := eng2 } st req) := by
  have hvf : v.is_valid = false := by
    rw [validate_is_valid env.eval_expr req.parameters _ v hv]
    obtain ⟨m, hm, hsev⟩ := herr
    simp only [Bool.not_eq_false', List.any_eq_true]
    exact ⟨m, hm, by simp [hsev]⟩
  refine ⟨generate_abort env st req design piece_type v hd hpt hv hvf, ?_⟩
  intro eng1 eng2
  rw [generate_abort { env with engine := eng1 } st req design piece_type v hd hpt hv hvf,
    generate_abort { env with engine := eng2 } st req design piece_type v hd hpt hv hvf]




/-- Witness for C2: the failing rule aborts the pipeline with the error text,
no revision is created and the state is returned unchanged. -/
theorem c2_abort_on_invalid_witness :
    generate sampleEnvInvalid ⟨[], 0⟩ ⟨1, [], ""⟩ = some (⟨[], 0⟩,
      ⟨false, none, none, none,
        (⟨false, [⟨"VR-1", Severity.error, "too thin"⟩]⟩ :
          ValidationResult).errors.map ValidationMessage.message,
        (⟨false, [⟨"VR-1", Severity.error, "too thin"⟩]⟩ :
          ValidationResult).warnings.map ValidationMessage.message, 0⟩) :=
  (c2_abort_on_invalid sampleEnvInvalid ⟨[], 0⟩ ⟨1, [], ""⟩ sampleDesign
    samplePieceType ⟨false, [⟨"VR-1", Severity.error, "too thin"⟩]⟩
    (by decide) (by decide) (by decide) (by decide)).1

/-! ## Orchestrator: traceability on generation failure -/

/-- C6 (amended): when the parameters validate and the engine call reports
failure, exactly one revision is appended, with all six output paths null and
validation_passed set; the response carries success false, the revision id,
code and output location, the validation and engine warnings, and the engine
error message: verbatim when it is a nonempty string, the fallback unknown
engine error text when the engine gives none or an empty string. -/
theorem c6_traceability_on_failure (env : GenEnv) (st : GenState)
    (req : GenerationRequest) (design : Design) (piece_type : PieceType)
    (v : ValidationResult) (cr : GenerationResult)
    (hd : env.designs.find? (fun d => d.id == req.design_id) = some design)
    (hpt : env.piece_types.find? (fun p => p.id == design.piece_type_id) = some piece_type)
    (hv : ValidationEngine.validate env.eval_expr req.parameters
        (env.rules_for piece_type.code) = some v)
    (hvt : v.is_valid = true)
    (hcr : env.engine piece_type.code req.parameters
        (outputDirFor env.outputs_dir piece_type.code design.name
          (RevisionRepository.get_next_revision_code st.revisions req.design_id))
        (RevisionRepository.get_next_revision_code st.revisions req.design_id) = cr)
    (hfail : cr.success = false) :
    ∃ rev resp, generate env st req = some (⟨st.revisions ++ [rev], st.now + 1⟩, resp) ∧
      rev.design_id = req.design_id ∧
      rev.revision_code = RevisionRepository.get_next_revision_code st.revisions req.design_id ∧
      rev.fcstd_path = none ∧ rev.step_path = none ∧ rev.dxf_path = none ∧
      rev.pdf_path = none ∧ rev.bom_xlsx_path = none ∧ rev.bom_pdf_path = none ∧
      rev.validation_passed = 1 ∧
      resp.success = false ∧
      resp.revision_id = some rev.id ∧
      resp.revision_code = some rev.revision_code ∧
      resp.output_dir = some (outputDirFor env.outputs_dir piece_type.code design.name
        rev.revision_code) ∧
      (∀ s, cr.error_message = some s → s ≠ "" → resp.errors = [s]) ∧
      ((cr.error_message = none ∨ cr.error_message = some "") →
        resp.errors = ["Error desconocido en el motor CAD."]) ∧
      resp.warnings = v.warnings.map ValidationMessage.message ++ cr.warnings := by
  have hcode : (RevisionRepository.newRevision st.revisions req.design_id
      req.parameters req.description "Fede" st.now).revision_code =
      RevisionRepository.get_next_revision_code st.revisions req.design_id := rfl
  rw [← hcode] at hcr
  let rev : Revision :=
    { RevisionRepository.newRevision st.revisions req.design_id req.parameters
        req.description "Fede" st.now with
      validation_passed := 1
      validation_warnings_json :=
        if (v.warnings.map ValidationMessage.message).isEmpty then none
        else some (dumpsStrList (v.warnings.map ValidationMessage.message)) }
  refine ⟨rev,
    ⟨false, some rev.id, some rev.revision_code,
      some (outputDirFor env.outputs_dir piece_type.code design.name rev.revision_code),
      [pyStrOr cr.error_message "Error desconocido en el motor CAD."],
      v.warnings.map ValidationMessage.message ++ cr.warnings, cr.elapsed_seconds⟩,
    ?_, rfl, hcode, rfl, rfl, rfl, rfl, rfl, rfl, rfl, rfl, rfl, rfl, rfl,
    ?_, ?_, rfl⟩
  · simp only [generate, hd, hpt, hv, hvt]
    rw [if_neg (by simp)]
    simp only [hcr, hfail, Bool.false_eq_true, if_false]
  · intro s hs hne
    show [pyStrOr cr.error_message "Error desconocido en el motor CAD."] = [s]
    rw [hs]
    simp [pyStrOr, hne]
  · intro hcase
    show [pyStrOr cr.error_message "Error desconocido en el motor CAD."] =
      ["Error desconocido en el motor CAD."]
    rcases hcase with hc | hc <;> rw [hc] <;> simp [pyStrOr]


/-- Counterexample for C6 as stated: the engine reports failure with the
empty string as its error message; the claim asks for that message to be
forwarded verbatim, but the code (Python or on a falsy string) substitutes
the fallback unknown engine error text. -/
theorem c6_error_message_counterexample :
    (sampleEnvEmptyErr.engine "base_plate" [] "outputs/base_plate/Base_Plate/A" "A").success
        = false ∧
    (sampleEnvEmptyErr.engine "base_plate" [] "outputs/base_plate/Base_Plate/A" "A").error_message
        = some "" ∧
    (generate sampleEnvEmptyErr ⟨[], 0⟩ ⟨1, [], ""⟩).map (fun p => (p.2).errors) =
      some ["Error desconocido en el motor CAD."] ∧
    (generate sampleEnvEmptyErr ⟨[], 0⟩ ⟨1, [], ""⟩).map (fun p => (p.2).errors) ≠
      some [""] := by
  refine ⟨rfl, rfl, ?_, ?_⟩ <;> decide

/-- Witness for the amended C6 at the empty error message environment. -/
theorem c6_traceability_on_failure_witness :
    ∃ rev resp, generate sampleEnvEmptyErr ⟨[], 0⟩ ⟨1, [], ""⟩ =
        some (⟨[] ++ [rev], 0 + 1⟩, resp) ∧
      rev.design_id = 1 ∧
      rev.revision_code = RevisionRepository.get_next_revision_code [] 1 ∧
      rev.fcstd_path = none ∧ rev.step_path = none ∧ rev.dxf_path = none ∧
      rev.pdf_path = none ∧ rev.bom_xlsx_path = none ∧ rev.bom_pdf_path = none ∧
      rev.validation_passed = 1 ∧
      resp.success = false ∧
      resp.revision_id = some rev.id ∧
      resp.revision_code = some rev.revision_code ∧
      resp.output_dir = some (outputDirFor "outputs" "base_plate" "Base Plate"
        rev.revision_code) ∧
      (∀ s, (some "" : Option String) = some s → s ≠ "" →
        resp.errors = [s]) ∧
      (((some "" : Option String) = none ∨ (some "" : Option String) = some "") →
        resp.errors = ["Error desconocido en el motor CAD."]) ∧
      resp.warnings = (⟨true, []⟩ : ValidationResult).warnings.map
        ValidationMessage.message ++ [] :=
  c6_traceability_on_failure sampleEnvEmptyErr ⟨[], 0⟩ ⟨1, [], ""⟩ sampleDesign
    samplePieceType ⟨true, []⟩ ⟨false, none, none, some "", [], 0⟩
    (by decide) (by decide) rfl rfl rfl rfl

/-- Witness for C8 at a one revision store: the fcstd path is set and the
five absent paths are cleared, nothing else changes. -/
theorem c8_update_output_paths_witness :
    pathsOnlyUpdate sampleRevZ
      ((RevisionRepository.update_output_paths [sampleRevZ] 1
          ⟨some "a.fcstd", none, none, none, none, none⟩).get ⟨0, by decide⟩)
      ⟨some "a.fcstd", none, none, none, none, none⟩ :=
  ((c8_update_output_paths [sampleRevZ] 1
      ⟨some "a.fcstd", none, none, none, none, none⟩).2 0 (by decide)
      (by decide)).1 (by decide)

/-! ## Monotonic revision coding across generate sequences -/

theorem codesFor_map_preserve (f : Revision → Revision)
    (h : ∀ r, (f r).design_id = r.design_id ∧ (f r).revision_code = r.revision_code)
    (revs : List Revision) (did : Nat) :
    codesFor (revs.map f) did = codesFor revs did := by
  induction revs with
  | nil => rfl
  | cons r rest ih =>
    simp only [List.map_cons, codesFor, RevisionRepository.get_by_design,
      List.filter_cons] at *
    rw [(h r).1]
    by_cases hd : (r.design_id == did) = true
    · simp [hd, (h r).2, ih]
    · simp [Bool.of_not_eq_true hd, ih]

theorem codesFor_update_output_paths (revs : List Revision) (rid : Nat)
    (paths : RevisionRepository.OutputPaths) (did : Nat) :
    codesFor (RevisionRepository.update_output_paths revs rid paths) did =
      codesFor revs did := by
  apply codesFor_map_preserve
  intro r
  by_cases hh : (r.id == rid) = true <;> simp [hh]

theorem codesFor_append_one (revs : List Revision) (rev : Revision) (did : Nat) :
    codesFor (revs ++ [rev]) did =
      codesFor revs did ++
        (if rev.design_id == did then [rev.revision_code] else []) := by
  simp only [codesFor, RevisionRepository.get_by_design, List.filter_append]
  by_cases hd : (rev.design_id == did) = true <;> simp [hd]

theorem generate_valid_codes (env : GenEnv) (st : GenState) (req : GenerationRequest)
    (design : Design) (piece_type : PieceType) (v : ValidationResult)
    (hd : env.designs.find? (fun d => d.id == req.design_id) = some design)
    (hpt : env.piece_types.find? (fun p => p.id == design.piece_type_id) = some piece_type)
    (hv : ValidationEngine.validate env.eval_expr req.parameters
        (env.rules_for piece_type.code) = some v)
    (hvt : v.is_valid = true) :
    ∃ st2 resp, generate env st req = some (st2, resp) ∧
      ∀ did, codesFor st2.revisions did =
        codesFor st.revisions did ++
          (if req.design_id == did then
            [RevisionRepository.get_next_revision_code st.revisions req.design_id]
           else []) := by
  simp only [generate, hd, hpt, hv, hvt]
  rw [if_neg (by simp)]
  cases hsucc : (env.engine piece_type.code req.parameters
      (outputDirFor env.outputs_dir piece_type.code design.name
        (RevisionRepository.newRevision st.revisions req.design_id req.parameters
          req.description "Fede" st.now).revision_code)
      (RevisionRepository.newRevision st.revisions req.design_id req.parameters
        req.description "Fede" st.now).revision_code).success with
  | true =>
    simp only [eq_self_iff_true, if_true]
    refine ⟨_, _, rfl, ?_⟩
    intro did
    show codesFor (RevisionRepository.update_output_paths _ _ _) did = _
    rw [codesFor_update_output_paths, codesFor_append_one]
    rfl
  | false =>
    simp only [Bool.false_eq_true, if_false]
    refine ⟨_, _, rfl, ?_⟩
    intro did
    show codesFor (st.revisions ++ [_]) did = _
    rw [codesFor_append_one]
    rfl


theorem getLast?_map {α β : Type} (f : α → β) (l : List α) :
    (l.map f).getLast? = (l.getLast?).map f := by
  induction l with
  | nil => rfl
  | cons a l ih =>
    cases l with
    | nil => rfl
    | cons b t =>
      simpa [List.getLast?_cons_cons] using ih

theorem specCodes_succ (k : Nat) :
    specCodes (k + 1) = specCodes k ++ [codeOfNat (k + 1)] := by
  simp [specCodes, List.range_succ]

theorem codeOfNat_one : codeOfNat 1 = "A" := by decide

theorem get_next_of_codes (revs : List Revision) (did k : Nat)
    (h : codesFor revs did = specCodes k) :
    RevisionRepository.get_next_revision_code revs did = codeOfNat (k + 1) := by
  cases k with
  | zero =>
    have hempty : RevisionRepository.get_by_design revs did = [] := by
      have h2 : codesFor revs did = [] := by simpa [specCodes] using h
      exact List.map_eq_nil_iff.mp h2
    rw [get_next_code_empty revs did hempty, codeOfNat_one]
  | succ k =>
    have hlast : ((RevisionRepository.get_by_design revs did).getLast?).map
        Revision.revision_code = some (codeOfNat (k + 1)) := by
      rw [← getLast?_map]
      show (codesFor revs did).getLast? = _
      rw [h, specCodes_succ, List.getLast?_concat]
    obtain ⟨r, hr, hrc⟩ := Option.map_eq_some'.mp hlast
    unfold RevisionRepository.get_next_revision_code
    rw [hr]
    show increment_revision_code r.revision_code = codeOfNat (k + 1 + 1)
    rw [hrc]
    exact increment_codeOfNat k


theorem specCodes_nodup (N : Nat) : (specCodes N).Nodup :=
  List.Nodup.map
    (fun a b hab => by
      have h2 := codeOfNat_inj (a + 1) (b + 1) hab
      omega)
    (List.nodup_range N)

theorem runGenerations_codes (env : GenEnv) (design_id : Nat) (design : Design)
    (pt : PieceType)
    (hd : env.designs.find? (fun d => d.id == design_id) = some design)
    (hpt : env.piece_types.find? (fun p => p.id == design.piece_type_id) = some pt) :
    ∀ (invs : List Invocation) (st : GenState) (k : Nat),
      (∀ inv ∈ invs, ∃ v, ValidationEngine.validate env.eval_expr inv.parameters
          (env.rules_for pt.code) = some v ∧ v.is_valid = true) →
      codesFor st.revisions design_id = specCodes k →
      ∃ stN, runGenerations env design_id st invs = some stN ∧
        codesFor stN.revisions design_id = specCodes (k + invs.length) := by
  intro invs
  induction invs with
  | nil =>
    intro st k _ hcodes
    exact ⟨st, rfl, by simpa using hcodes⟩
  | cons inv rest ih =>
    intro st k hval hcodes
    obtain ⟨v, hv, hvt⟩ := hval inv (List.mem_cons_self inv rest)
    obtain ⟨st2, resp, hgen, hcf⟩ := generate_valid_codes
      { env with engine := inv.engine } st ⟨design_id, inv.parameters, inv.description⟩
      design pt v hd hpt hv hvt
    have hstep : codesFor st2.revisions design_id = specCodes (k + 1) := by
      rw [hcf design_id]
      simp only [beq_self_eq_true, if_true]
      rw [get_next_of_codes st.revisions design_id k hcodes, hcodes, ← specCodes_succ]
    obtain ⟨stN, hrunN, hcodesN⟩ := ih st2 (k + 1)
      (fun i hi => hval i (List.mem_cons_of_mem inv hi)) hstep
    refine ⟨stN, ?_, ?_⟩
    · simp only [runGenerations, hgen]
      exact hrunN
    · rw [hcodesN]
      congr 1
      simp
      omega
  
/-- C1: starting from a design with no revisions, any sequence of N generate
invocations that each pass validation (whatever each engine call returns)
succeeds and leaves the design with exactly the first N terms of the
alphabetic sequence A, B, ..., Z, AA, ... as its revision codes in creation
order; in particular the codes are pairwise distinct, so no
(design_id, revision_code) pair repeats. -/
theorem c1_monotonic_coding (env : GenEnv) (design_id : Nat) (design : Design)
    (pt : PieceType) (invs : List Invocation) (st0 : GenState)
    (hd : env.designs.find? (fun d => d.id == design_id) = some design)
    (hpt : env.piece_types.find? (fun p => p.id == design.piece_type_id) = some pt)
    (hval : ∀ inv ∈ invs, ∃ v, ValidationEngine.validate env.eval_expr inv.parameters
        (env.rules_for pt.code) = some v ∧ v.is_valid = true)
    (hfresh : codesFor st0.revisions design_id = []) :
    ∃ stN, runGenerations env design_id st0 invs = some stN ∧
      codesFor stN.revisions design_id = specCodes invs.length ∧
      (codesFor stN.revisions design_id).Nodup := by
  obtain ⟨stN, hrun, hcodes⟩ := runGenerations_codes env design_id design pt hd hpt
    invs st0 0 hval (by simpa [specCodes] using hfresh)
  have hcodes2 : codesFor stN.revisions design_id = specCodes invs.length := by
    simpa using hcodes
  refine ⟨stN, hrun, hcodes2, ?_⟩
  rw [hcodes2]
  exact specCodes_nodup _

/-- Witness for C1: three generate invocations (the second one failing in the
engine) allocate codes A, B, C. -/
theorem c1_monotonic_coding_witness :
    ∃ stN, runGenerations sampleEnvGen 1 ⟨[], 0⟩
        [⟨[], "", sampleEnvGen.engine⟩,
         ⟨[], "", fun _ _ _ _ => ⟨false, none, none, some "boom", [], 0⟩⟩,
         ⟨[], "", sampleEnvGen.engine⟩] = some stN ∧
      codesFor stN.revisions 1 = specCodes 3 ∧
      (codesFor stN.revisions 1).Nodup :=
  c1_monotonic_coding sampleEnvGen 1 sampleDesign samplePieceType
    [⟨[], "", sampleEnvGen.engine⟩,
     ⟨[], "", fun _ _ _ _ => ⟨false, none, none, some "boom", [], 0⟩⟩,
     ⟨[], "", sampleEnvGen.engine⟩] ⟨[], 0⟩ (by decide) (by decide)
    (fun inv _ => ⟨⟨true, []⟩, rfl, rfl⟩) rfl

/-! ## JSON round trip of the parameters property -/

theorem hexVal_hexDigitChar : ∀ n : Fin 16, hexVal (hexDigitChar n.val) = some n.val := by
  decide

theorem escapeChar_length_pos (c : Char) : 1 ≤ (escapeChar c).length := by
  unfold escapeChar
  split_ifs <;> simp

theorem parseStringBody_escapeChar (c : Char) (tail : List Char) (fuel : Nat)
    (res : List Char × List Char)
    (hfuel : (escapeChar c ++ tail).length ≤ fuel)
    (hcont : ∀ f2, tail.length ≤ f2 → parseStringBody f2 tail = some res) :
    parseStringBody fuel (escapeChar c ++ tail) = some (c :: res.1, res.2) := by
  have hlen := escapeChar_length_pos c
  obtain ⟨f, rfl⟩ : ∃ f, fuel = f + 1 := by
    refine ⟨fuel - 1, ?_⟩
    simp [List.length_append] at hfuel
    omega
  have htail : tail.length ≤ f := by
    simp [List.length_append] at hfuel
    omega
  by_cases h1 : c = '"'
  · subst h1
    simp [escapeChar, parseStringBody, hcont f htail]
  · by_cases h2 : c = '\\'
    · subst h2
      simp [escapeChar, parseStringBody, hcont f htail]
    · by_cases h3 : c = Char.ofNat 8
      · subst h3
        simp [escapeChar, parseStringBody, hcont f htail]
      · by_cases h4 : c = Char.ofNat 9
        · subst h4
          simp [escapeChar, parseStringBody, hcont f htail]
        · by_cases h5 : c = Char.ofNat 10
          · subst h5
            simp [escapeChar, parseStringBody, hcont f htail]
          · by_cases h6 : c = Char.ofNat 12
            · subst h6
              simp [escapeChar, parseStringBody, hcont f htail]
            · by_cases h7 : c = Char.ofNat 13
              · subst h7
                simp [escapeChar, parseStringBody, hcont f htail]
              · by_cases h8 : c.toNat < 32
                · have hq : hexVal (hexDigitChar (c.toNat / 16)) = some (c.toNat / 16) :=
                    hexVal_hexDigitChar ⟨c.toNat / 16, by omega⟩
                  have hr : hexVal (hexDigitChar (c.toNat % 16)) = some (c.toNat % 16) :=
                    hexVal_hexDigitChar ⟨c.toNat % 16, by omega⟩
                  have hval : ((0 * 16 + 0) * 16 + c.toNat / 16) * 16 + c.toNat % 16 =
                      c.toNat := by omega
                  simp only [escapeChar, h1, h2, h3, h4, h5, h6, h7, h8, if_true, if_false,
                    ite_true, ite_false, if_neg, if_pos, List.cons_append, List.nil_append]
                  have h0 : hexVal '0' = some 0 := by decide
                  simp [parseStringBody, h0, hq, hr, hval, Char.ofNat_toNat, hcont f htail]
                  rw [show c.toNat / 16 * 16 + c.toNat % 16 = c.toNat from by omega,
                    Char.ofNat_toNat]
                · simp only [escapeChar, h1, h2, h3, h4, h5, h6, h7, h8, if_false,
                    ite_false, List.cons_append, List.nil_append]
                  simp [parseStringBody, h1, h2, hcont f htail]


theorem parseStringBody_escape (s : List Char) : ∀ (fuel : Nat) (rest : List Char),
    (escapeList s ++ '"' :: rest).length ≤ fuel →
    parseStringBody fuel (escapeList s ++ '"' :: rest) = some (s, rest) := by
  induction s with
  | nil =>
    intro fuel rest hfuel
    simp only [escapeList, List.nil_append] at hfuel ⊢
    obtain ⟨f, rfl⟩ : ∃ f, fuel = f + 1 := by
      refine ⟨fuel - 1, ?_⟩
      simp at hfuel
      omega
    simp [parseStringBody]
  | cons c cs ih =>
    intro fuel rest hfuel
    have hsplit : escapeList (c :: cs) ++ '"' :: rest =
        escapeChar c ++ (escapeList cs ++ '"' :: rest) := by
      simp [escapeList]
    rw [hsplit] at hfuel ⊢
    exact parseStringBody_escapeChar c (escapeList cs ++ '"' :: rest) fuel (cs, rest)
      hfuel (fun f2 h2 => ih f2 rest h2)

theorem mk_data (s : String) : (⟨s.data⟩ : String) = s := rfl

theorem parseString_encode (k : String) (fuel : Nat) (rest : List Char)
    (hfuel : (encodeString k ++ rest).length ≤ fuel) :
    parseString fuel (encodeString k ++ rest) = some (k, rest) := by
  have hsplit : encodeString k ++ rest = '"' :: (escapeList k.data ++ '"' :: rest) := by
    simp [encodeString]
  rw [hsplit] at hfuel ⊢
  have hbody : parseStringBody fuel (escapeList k.data ++ '"' :: rest) =
      some (k.data, rest) := by
    apply parseStringBody_escape
    simp at hfuel ⊢
    omega
  simp [parseString, hbody, mk_data]


theorem natCharsRevAux_fuel (f1 : Nat) : ∀ (f2 n : Nat), n ≤ f1 → n ≤ f2 →
    natCharsRevAux f1 n = natCharsRevAux f2 n := by
  induction f1 with
  | zero =>
    intro f2 n h1 _
    interval_cases n
    cases f2 <;> simp [natCharsRevAux]
  | succ f ih =>
    intro f2 n h1 h2
    match n, f2 with
    | 0, f2 => cases f2 <;> simp [natCharsRevAux]
    | m + 1, 0 => omega
    | m + 1, g + 1 =>
      simp only [natCharsRevAux]
      have hm : (m + 1) / 10 ≤ f := by omega
      have hg : (m + 1) / 10 ≤ g := by omega
      rw [ih f ((m + 1) / 10) hm hm, ih g ((m + 1) / 10) hm hg]

theorem digitChar_props : ∀ k : Fin 10,
    (Char.ofNat (48 + k.val)).isDigit = true ∧
    (Char.ofNat (48 + k.val)).toNat = 48 + k.val := by
  decide

theorem digitChar_isDigit (k : Nat) : (digitChar k).isDigit = true :=
  (digitChar_props ⟨k % 10, by omega⟩).1

theorem digitChar_toNat (k : Nat) : (digitChar k).toNat = 48 + k % 10 :=
  (digitChar_props ⟨k % 10, by omega⟩).2

theorem mem_natCharsRevAux_isDigit (fuel : Nat) : ∀ (n : Nat) (c : Char),
    c ∈ natCharsRevAux fuel n → c.isDigit = true := by
  induction fuel with
  | zero =>
    intro n c hc
    cases n <;> simp [natCharsRevAux] at hc
  | succ f ih =>
    intro n c hc
    cases n with
    | zero => simp [natCharsRevAux] at hc
    | succ m =>
      simp only [natCharsRevAux, List.mem_cons] at hc
      rcases hc with rfl | hc
      · exact digitChar_isDigit _
      · exact ih _ c hc

theorem natChars_all_digits (n : Nat) : ∀ c ∈ natChars n, c.isDigit = true := by
  intro c hc
  unfold natChars at hc
  by_cases h : n = 0
  · simp [h] at hc
    subst hc
    decide
  · rw [if_neg h, List.mem_reverse] at hc
    exact mem_natCharsRevAux_isDigit n n c hc

theorem natChars_ne_nil (n : Nat) : natChars n ≠ [] := by
  unfold natChars
  by_cases h : n = 0
  · simp [h]
  · rw [if_neg h]
    obtain ⟨m, rfl⟩ : ∃ m, n = m + 1 := ⟨n - 1, by omega⟩
    simp [natCharsRevAux]

theorem digitsVal_append_one (xs : List Char) (c : Char) :
    digitsVal (xs ++ [c]) = digitsVal xs * 10 + (c.toNat - 48) := by
  simp [digitsVal, List.foldl_append]

theorem digitsVal_aux (n : Nat) : digitsVal ((natCharsRevAux n n).reverse) = n := by
  induction n using Nat.strong_induction_on with
  | _ n ih =>
    match n with
    | 0 => rfl
    | m + 1 =>
      have hq : (m + 1) / 10 < m + 1 := by omega
      have hstep : natCharsRevAux (m + 1) (m + 1) =
          digitChar ((m + 1) % 10) :: natCharsRevAux ((m + 1) / 10) ((m + 1) / 10) := by
        simp only [natCharsRevAux]
        rw [natCharsRevAux_fuel m ((m + 1) / 10) ((m + 1) / 10) (by omega) (by omega)]
      rw [hstep, List.reverse_cons, digitsVal_append_one, ih ((m + 1) / 10) hq,
        digitChar_toNat]
      omega

theorem digitsVal_natChars (n : Nat) : digitsVal (natChars n) = n := by
  unfold natChars
  by_cases h : n = 0
  · subst h
    decide
  · rw [if_neg h]
    exact digitsVal_aux n

theorem spanDigits_append (ds : List Char) : ∀ (rest : List Char),
    (∀ c ∈ ds, c.isDigit = true) →
    (∀ c, rest.head? = some c → c.isDigit = false) →
    spanDigits (ds ++ rest) = (ds, rest) := by
  induction ds with
  | nil =>
    intro rest _ hrest
    cases rest with
    | nil => rfl
    | cons c r =>
      simp only [List.nil_append, spanDigits]
      rw [if_neg (by simp [hrest c rfl])]
  | cons c ds ih =>
    intro rest hds hrest
    simp only [List.cons_append, spanDigits]
    rw [if_pos (hds c (List.mem_cons_self c ds))]
    simp only [List.append_eq]
    rw [ih rest (fun x hx => hds x (List.mem_cons_of_mem c hx)) hrest]


theorem isDigit_ne (c : Char) (h : c.isDigit = true) :
    c ≠ '"' ∧ c ≠ 't' ∧ c ≠ 'f' ∧ c ≠ '-' ∧ wsChar c = false := by
  refine ⟨?_, ?_, ?_, ?_, ?_⟩
  · intro heq; subst heq; exact absurd h (by decide)
  · intro heq; subst heq; exact absurd h (by decide)
  · intro heq; subst heq; exact absurd h (by decide)
  · intro heq; subst heq; exact absurd h (by decide)
  · simp only [wsChar, Bool.or_eq_false_iff, decide_eq_false_iff_not]
    refine ⟨⟨⟨?_, ?_⟩, ?_⟩, ?_⟩ <;>
      (intro heq; subst heq; exact absurd h (by decide))

theorem digitsOf_digitChar : ∀ d : Fin 10,
    (⟨((Char.ofNat (48 + d.val)).toNat - 48) % 10, by omega⟩ : Fin 10) = d := by
  decide

theorem digitsOf_digitsChars (l : List (Fin 10)) : digitsOf (digitsChars l) = l := by
  induction l with
  | nil => rfl
  | cons d ds ih =>
    simp only [digitsChars, digitsOf, List.map_cons] at ih ⊢
    rw [ih, digitsOf_digitChar d]

theorem digitsChars_all_digits (l : List (Fin 10)) :
    ∀ c ∈ digitsChars l, c.isDigit = true := by
  intro c hc
  simp only [digitsChars, List.mem_map] at hc
  obtain ⟨d, _, rfl⟩ := hc
  exact (digitChar_props d).1

theorem digitsChars_ne_nil (l : List (Fin 10)) (h : l ≠ []) : digitsChars l ≠ [] := by
  simp [digitsChars, h]

theorem spanDigits_digitsChars (l : List (Fin 10)) (rest : List Char)
    (hrest : ∀ c, rest.head? = some c → c.isDigit = false) :
    spanDigits (digitsChars l ++ rest) = (digitsChars l, rest) :=
  spanDigits_append (digitsChars l) rest (digitsChars_all_digits l) hrest

theorem parseExp_encode (eneg : Bool) (ds : List (Fin 10)) (rest : List Char)
    (hds : ds ≠ [])
    (hrest : ∀ c, rest.head? = some c → c.isDigit = false) :
    parseExp ((if eneg then '-' else '+') :: (digitsChars ds ++ rest)) =
      some ((eneg, ds), rest) := by
  have hspan := spanDigits_digitsChars ds rest hrest
  cases eneg with
  | true =>
    show parseExp ('-' :: (digitsChars ds ++ rest)) = some ((true, ds), rest)
    simp only [parseExp, hspan]
    simp [digitsChars_ne_nil ds hds, digitsOf_digitsChars]
  | false =>
    show parseExp ('+' :: (digitsChars ds ++ rest)) = some ((false, ds), rest)
    simp only [parseExp, hspan]
    simp [digitsChars_ne_nil ds hds, digitsOf_digitsChars]

theorem parseNumBody_nat (n : Nat) (rest : List Char)
    (hrest : ∀ c, rest.head? = some c →
      c.isDigit = false ∧ c ≠ '.' ∧ c ≠ 'e' ∧ c ≠ 'E') :
    parseNumBody (natChars n ++ rest) = some (.num n, rest) := by
  have hspan : spanDigits (natChars n ++ rest) = (natChars n, rest) :=
    spanDigits_append (natChars n) rest (natChars_all_digits n)
      (fun c hc => (hrest c hc).1)
  cases rest with
  | nil =>
    simp only [parseNumBody, hspan]
    rw [if_neg (natChars_ne_nil n)]
    simp [digitsVal_natChars]
  | cons c2 rest2 =>
    obtain ⟨_, hdot, he, hE⟩ := hrest c2 rfl
    simp only [parseNumBody, hspan]
    rw [if_neg (natChars_ne_nil n)]
    rw [if_neg hdot, if_neg (by simp [he, hE])]
    simp [digitsVal_natChars]

theorem parseNumBody_dec (ipart frac : List (Fin 10))
    (exp : Option (Bool × List (Fin 10))) (rest : List Char)
    (hip : ipart ≠ [])
    (hfe : frac ≠ [] ∨ exp.isSome = true)
    (hexp : ∀ p, exp = some p → p.2 ≠ [])
    (hrest : ∀ c, rest.head? = some c →
      c.isDigit = false ∧ c ≠ '.' ∧ c ≠ 'e' ∧ c ≠ 'E') :
    parseNumBody (encodeDec false ipart frac exp ++ rest) =
      some (.dec false ipart frac exp, rest) := by
  have hrest1 : ∀ c, rest.head? = some c → c.isDigit = false :=
    fun c hc => (hrest c hc).1
  by_cases hf : frac = []
  · subst hf
    obtain ⟨⟨eneg, ds⟩, rfl⟩ : ∃ p, exp = some p := by
      rcases hfe with h | h
      · exact absurd rfl h
      · cases exp with
        | none => simp at h
        | some p => exact ⟨p, rfl⟩
    have hds : ds ≠ [] := hexp (eneg, ds) rfl
    have hsplit : encodeDec false ipart [] (some (eneg, ds)) ++ rest =
        digitsChars ipart ++
          ('e' :: ((if eneg then '-' else '+') :: (digitsChars ds ++ rest))) := by
      simp [encodeDec]
    have hspan : spanDigits (digitsChars ipart ++
        ('e' :: ((if eneg then '-' else '+') :: (digitsChars ds ++ rest)))) =
        (digitsChars ipart,
          'e' :: ((if eneg then '-' else '+') :: (digitsChars ds ++ rest))) :=
      spanDigits_digitsChars ipart _ (by intro c hc; simp at hc; subst hc; decide)
    rw [hsplit]
    simp only [parseNumBody, hspan]
    rw [if_neg (digitsChars_ne_nil ipart hip)]
    simp [parseExp_encode eneg ds rest hds hrest1, digitsOf_digitsChars]
  · have hspan2 := spanDigits_digitsChars frac rest hrest1
    cases exp with
    | none =>
      have hsplit : encodeDec false ipart frac none ++ rest =
          digitsChars ipart ++ ('.' :: (digitsChars frac ++ rest)) := by
        simp [encodeDec, hf]
      have hspan : spanDigits (digitsChars ipart ++
          ('.' :: (digitsChars frac ++ rest))) =
          (digitsChars ipart, '.' :: (digitsChars frac ++ rest)) :=
        spanDigits_digitsChars ipart _ (by intro c hc; simp at hc; subst hc; decide)
      rw [hsplit]
      cases rest with
      | nil =>
        simp only [parseNumBody, hspan]
        rw [if_neg (digitsChars_ne_nil ipart hip)]
        simp [show spanDigits (digitsChars frac) = (digitsChars frac, []) from by
            simpa using hspan2,
          digitsChars_ne_nil frac hf, digitsOf_digitsChars]
      | cons c3 rest3 =>
        obtain ⟨_, _, he, hE⟩ := hrest c3 rfl
        simp only [parseNumBody, hspan]
        rw [if_neg (digitsChars_ne_nil ipart hip)]
        simp [hspan2, digitsChars_ne_nil frac hf, digitsOf_digitsChars, he, hE]
    | some p =>
      obtain ⟨eneg, ds⟩ := p
      have hds : ds ≠ [] := hexp (eneg, ds) rfl
      have hsplit : encodeDec false ipart frac (some (eneg, ds)) ++ rest =
          digitsChars ipart ++ ('.' :: (digitsChars frac ++
            ('e' :: ((if eneg then '-' else '+') :: (digitsChars ds ++ rest))))) := by
        simp [encodeDec, hf]
      have hspan : spanDigits (digitsChars ipart ++ ('.' :: (digitsChars frac ++
          ('e' :: ((if eneg then '-' else '+') :: (digitsChars ds ++ rest)))))) =
          (digitsChars ipart, '.' :: (digitsChars frac ++
            ('e' :: ((if eneg then '-' else '+') :: (digitsChars ds ++ rest))))) :=
        spanDigits_digitsChars ipart _ (by intro c hc; simp at hc; subst hc; decide)
      have hspan3 : spanDigits (digitsChars frac ++
          ('e' :: ((if eneg then '-' else '+') :: (digitsChars ds ++ rest)))) =
          (digitsChars frac,
            'e' :: ((if eneg then '-' else '+') :: (digitsChars ds ++ rest))) :=
        spanDigits_digitsChars frac _ (by intro c hc; simp at hc; subst hc; decide)
      rw [hsplit]
      simp only [parseNumBody, hspan]
      rw [if_neg (digitsChars_ne_nil ipart hip)]
      simp [hspan3, digitsChars_ne_nil frac hf,
        parseExp_encode eneg ds rest hds hrest1, digitsOf_digitsChars]

theorem parseNumber_int (i : Int) (rest : List Char)
    (hrest : ∀ c, rest.head? = some c →
      c.isDigit = false ∧ c ≠ '.' ∧ c ≠ 'e' ∧ c ≠ 'E') :
    parseNumber (intChars i ++ rest) = some (.num i, rest) := by
  by_cases hneg : i < 0
  · have hic : intChars i ++ rest = '-' :: (natChars i.natAbs ++ rest) := by
      simp [intChars, hneg]
    rw [hic]
    simp only [parseNumber]
    rw [if_pos trivial, parseNumBody_nat i.natAbs rest hrest]
    simp only [Option.map_some', applyNeg, Option.some.injEq, Prod.mk.injEq,
      JValue.num.injEq]
    exact ⟨by omega, trivial⟩
  · have hic : intChars i = natChars i.natAbs := by simp [intChars, hneg]
    obtain ⟨d, ds, heq⟩ : ∃ d ds, natChars i.natAbs = d :: ds := by
      cases hn : natChars i.natAbs with
      | nil => exact absurd hn (natChars_ne_nil _)
      | cons d ds => exact ⟨d, ds, rfl⟩
    have hd : d.isDigit = true :=
      natChars_all_digits i.natAbs d (by rw [heq]; exact List.mem_cons_self d ds)
    rw [hic, heq]
    simp only [List.cons_append, parseNumber]
    rw [if_neg (isDigit_ne d hd).2.2.2.1]
    rw [show d :: (ds ++ rest) = natChars i.natAbs ++ rest from by simp [heq]]
    rw [parseNumBody_nat i.natAbs rest hrest]
    simp only [Option.some.injEq, Prod.mk.injEq, JValue.num.injEq]
    exact ⟨by omega, trivial⟩

theorem encodeDec_head (neg : Bool) (ipart frac : List (Fin 10))
    (exp : Option (Bool × List (Fin 10))) (hip : ipart ≠ []) :
    ∃ d ds, encodeDec neg ipart frac exp = d :: ds ∧
      ((neg = true ∧ d = '-') ∨ d.isDigit = true) := by
  obtain ⟨d0, ip0, heq⟩ : ∃ d0 ip0, ipart = d0 :: ip0 := by
    cases ipart with
    | nil => exact absurd rfl hip
    | cons d0 ip0 => exact ⟨d0, ip0, rfl⟩
  cases neg with
  | true =>
    exact ⟨'-', encodeDec false ipart frac exp, by simp [encodeDec], Or.inl ⟨rfl, rfl⟩⟩
  | false =>
    have h1 : encodeDec false ipart frac exp =
        Char.ofNat (48 + d0.val) :: (digitsChars ip0 ++
          ((if frac.isEmpty then [] else '.' :: digitsChars frac) ++
            (match exp with
             | none => []
             | some (eneg, ds2) =>
                 'e' :: (if eneg then '-' else '+') :: digitsChars ds2))) := by
      simp [encodeDec, heq, digitsChars]
    exact ⟨_, _, h1, Or.inr (digitChar_props d0).1⟩

theorem parseNumber_dec (neg : Bool) (ipart frac : List (Fin 10))
    (exp : Option (Bool × List (Fin 10))) (rest : List Char)
    (hip : ipart ≠ [])
    (hfe : frac ≠ [] ∨ exp.isSome = true)
    (hexp : ∀ p, exp = some p → p.2 ≠ [])
    (hrest : ∀ c, rest.head? = some c →
      c.isDigit = false ∧ c ≠ '.' ∧ c ≠ 'e' ∧ c ≠ 'E') :
    parseNumber (encodeDec neg ipart frac exp ++ rest) =
      some (.dec neg ipart frac exp, rest) := by
  cases neg with
  | true =>
    have hsplit : encodeDec true ipart frac exp ++ rest =
        '-' :: (encodeDec false ipart frac exp ++ rest) := by
      simp [encodeDec]
    rw [hsplit]
    simp only [parseNumber]
    rw [if_pos trivial, parseNumBody_dec ipart frac exp rest hip hfe hexp hrest]
    rfl
  | false =>
    obtain ⟨d, ds, heq, hdc⟩ := encodeDec_head false ipart frac exp hip
    have hd : d.isDigit = true := by
      rcases hdc with ⟨hcontra, _⟩ | hd
      · exact absurd hcontra (by decide)
      · exact hd
    have hdm : d ≠ '-' := (isDigit_ne d hd).2.2.2.1
    rw [show encodeDec false ipart frac exp ++ rest = d :: (ds ++ rest) from by
      simp [heq]]
    simp only [parseNumber]
    rw [if_neg hdm]
    rw [show d :: (ds ++ rest) = encodeDec false ipart frac exp ++ rest from by
      simp [heq]]
    exact parseNumBody_dec ipart frac exp rest hip hfe hexp hrest

theorem intChars_head (i : Int) :
    ∃ d ds, intChars i = d :: ds ∧ (d = '-' ∨ d.isDigit = true) := by
  by_cases hneg : i < 0
  · exact ⟨'-', natChars i.natAbs, by simp [intChars, hneg], Or.inl rfl⟩
  · have hic : intChars i = natChars i.natAbs := by simp [intChars, hneg]
    obtain ⟨d, ds, heq⟩ : ∃ d ds, natChars i.natAbs = d :: ds := by
      cases hn : natChars i.natAbs with
      | nil => exact absurd hn (natChars_ne_nil _)
      | cons d ds => exact ⟨d, ds, rfl⟩
    exact ⟨d, ds, by rw [hic, heq], Or.inr (natChars_all_digits i.natAbs d
      (by rw [heq]; exact List.mem_cons_self d ds))⟩

theorem wf_dec (neg : Bool) (ipart frac : List (Fin 10))
    (exp : Option (Bool × List (Fin 10)))
    (h : (JValue.dec neg ipart frac exp).wf = true) :
    ipart ≠ [] ∧ (frac ≠ [] ∨ exp.isSome = true) ∧
      ∀ p, exp = some p → p.2 ≠ [] := by
  cases exp with
  | none =>
    simp [JValue.wf] at h
    exact ⟨h.1, Or.inl h.2, fun p hp => by simp at hp⟩
  | some p =>
    obtain ⟨eneg, ds⟩ := p
    simp [JValue.wf] at h
    exact ⟨h.1, Or.inr rfl, fun q hq => by
      cases hq
      exact h.2⟩

theorem parseJValue_encode (v : JValue) (fuel : Nat) (rest : List Char)
    (hfuel : (encodeJValue v ++ rest).length ≤ fuel)
    (hrest : ∀ c, rest.head? = some c →
      c.isDigit = false ∧ c ≠ '.' ∧ c ≠ 'e' ∧ c ≠ 'E')
    (hwf : v.wf = true) :
    parseJValue fuel (encodeJValue v ++ rest) = some (v, rest) := by
  cases v with
  | str s =>
    have hsplit : encodeJValue (JValue.str s) ++ rest =
        '"' :: (escapeList s.data ++ '"' :: rest) := by
      simp [encodeJValue, encodeString]
    rw [hsplit] at hfuel ⊢
    have hbody : parseStringBody fuel (escapeList s.data ++ '"' :: rest) =
        some (s.data, rest) := by
      apply parseStringBody_escape
      simp at hfuel ⊢
      omega
    simp [parseJValue, hbody, mk_data]
  | bool b =>
    cases b <;> simp [encodeJValue, parseJValue]
  | num i =>
    obtain ⟨d, ds, heq, hdc⟩ := intChars_head i
    have hne : d ≠ '"' ∧ d ≠ 't' ∧ d ≠ 'f' := by
      rcases hdc with rfl | hd
      · exact ⟨by decide, by decide, by decide⟩
      · exact ⟨(isDigit_ne d hd).1, (isDigit_ne d hd).2.1, (isDigit_ne d hd).2.2.1⟩
    have hsplit : encodeJValue (JValue.num i) ++ rest = d :: (ds ++ rest) := by
      simp [encodeJValue, heq]
    rw [hsplit]
    have hback : d :: (ds ++ rest) = intChars i ++ rest := by
      simp [heq]
    simp only [parseJValue]
    rw [if_neg hne.1, if_neg hne.2.1, if_neg hne.2.2]
    rw [hback]
    exact parseNumber_int i rest hrest
  | dec neg ipart frac exp =>
    obtain ⟨hip, hfe, hexp⟩ := wf_dec neg ipart frac exp hwf
    obtain ⟨d, ds, heq, hdc⟩ := encodeDec_head neg ipart frac exp hip
    have hne : d ≠ '"' ∧ d ≠ 't' ∧ d ≠ 'f' := by
      rcases hdc with ⟨_, rfl⟩ | hd
      · exact ⟨by decide, by decide, by decide⟩
      · exact ⟨(isDigit_ne d hd).1, (isDigit_ne d hd).2.1, (isDigit_ne d hd).2.2.1⟩
    have hsplit : encodeJValue (JValue.dec neg ipart frac exp) ++ rest =
        d :: (ds ++ rest) := by
      simp [encodeJValue, heq]
    rw [hsplit]
    have hback : d :: (ds ++ rest) = encodeDec neg ipart frac exp ++ rest := by
      simp [heq]
    simp only [parseJValue]
    rw [if_neg hne.1, if_neg hne.2.1, if_neg hne.2.2]
    rw [hback]
    exact parseNumber_dec neg ipart frac exp rest hip hfe hexp hrest


theorem skipWs_not_ws (c : Char) (l : List Char) (h : wsChar c = false) :
    skipWs (c :: l) = c :: l := by
  simp [skipWs, h]

theorem skipWs_space (l : List Char) : skipWs (' ' :: l) = skipWs l := by
  simp [skipWs, wsChar]

theorem encodeJValue_head_not_ws (v : JValue) (hwf : v.wf = true) :
    ∃ c cs, encodeJValue v = c :: cs ∧ wsChar c = false := by
  cases v with
  | str s =>
    exact ⟨'"', escapeList s.data ++ ['"'], by simp [encodeJValue, encodeString], by decide⟩
  | bool b => cases b <;> exact ⟨_, _, rfl, by decide⟩
  | num i =>
    obtain ⟨d, ds, heq, hdc⟩ := intChars_head i
    refine ⟨d, ds, by simp [encodeJValue, heq], ?_⟩
    rcases hdc with rfl | hd
    · decide
    · exact (isDigit_ne d hd).2.2.2.2
  | dec neg ipart frac exp =>
    obtain ⟨hip, _, _⟩ := wf_dec neg ipart frac exp hwf
    obtain ⟨d, ds, heq, hdc⟩ := encodeDec_head neg ipart frac exp hip
    refine ⟨d, ds, by simp [encodeJValue, heq], ?_⟩
    rcases hdc with ⟨_, rfl⟩ | hd
    · decide
    · exact (isDigit_ne d hd).2.2.2.2

theorem parseItems_ws_cons (fuel : Nat) (c : Char) (l : List Char)
    (h : wsChar c = true) : parseItems fuel (c :: l) = parseItems fuel l := by
  cases fuel with
  | zero => rfl
  | succ f =>
    simp only [parseItems]
    rw [show skipWs (c :: l) = skipWs l from by simp [skipWs, h]]



theorem encodeString_head (k : String) (X : List Char) :
    encodeString k ++ X = '"' :: (escapeList k.data ++ '"' :: X) := by
  simp [encodeString]

theorem skipWs_encodeString (k : String) (X : List Char) :
    skipWs (encodeString k ++ X) = encodeString k ++ X := by
  rw [encodeString_head]
  exact skipWs_not_ws _ _ (by decide)

theorem skipWs_encodeJValue (v : JValue) (hwf : v.wf = true) (T : List Char) :
    skipWs (encodeJValue v ++ T) = encodeJValue v ++ T := by
  obtain ⟨c0, cs0, hv, hws⟩ := encodeJValue_head_not_ws v hwf
  rw [show encodeJValue v ++ T = c0 :: (cs0 ++ T) from by simp [hv]]
  exact skipWs_not_ws _ _ hws

theorem parseItems_encode : ∀ (m : List (String × JValue)) (fuel : Nat) (rest : List Char),
    m ≠ [] →
    (∀ kv ∈ m, (kv.2).wf = true) →
    (encodeItems m ++ rbrace :: rest).length ≤ fuel →
    parseItems fuel (encodeItems m ++ rbrace :: rest) = some (m, rest) := by
  intro m
  induction m with
  | nil => intro fuel rest h; contradiction
  | cons kv tl ih =>
    intro fuel rest _ hwf0 hfuel
    obtain ⟨k, v⟩ := kv
    have hwfv : v.wf = true := hwf0 (k, v) (List.mem_cons_self (k, v) tl)
    obtain ⟨f, rfl⟩ : ∃ f, fuel = f + 1 := by
      refine ⟨fuel - 1, ?_⟩
      simp [List.length_append] at hfuel
      omega
    cases tl with
    | nil =>
      have hsplit : encodeItems [(k, v)] ++ rbrace :: rest =
          encodeString k ++ (':' :: ' ' :: (encodeJValue v ++ rbrace :: rest)) := by
        simp [encodeItems]
      rw [hsplit] at hfuel ⊢
      have hlen : (encodeString k).length = (escapeList k.data).length + 2 := by
        simp [encodeString]
      simp only [List.length_append, List.length_cons] at hfuel
      have hks : parseString (f + 1)
          (encodeString k ++ (':' :: ' ' :: (encodeJValue v ++ rbrace :: rest))) =
          some (k, ':' :: ' ' :: (encodeJValue v ++ rbrace :: rest)) := by
        apply parseString_encode
        simp [List.length_append]
        omega
      have hvv : parseJValue (f + 1) (encodeJValue v ++ rbrace :: rest) =
          some (v, rbrace :: rest) := by
        apply parseJValue_encode
        · simp [List.length_append]
          omega
        · intro c hc
          simp at hc
          subst hc
          decide
        · exact hwfv
      simp only [parseItems, skipWs_encodeString, hks]
      rw [skipWs_not_ws ':' _ (by decide)]
      simp only [reduceIte, skipWs_space, skipWs_encodeJValue v hwfv, hvv]
      rw [skipWs_not_ws rbrace _ (by decide)]
      simp only [reduceIte]
      rw [if_neg (show ¬rbrace = ',' by decide)]
    | cons kv2 tl2 =>
      have hsplit : encodeItems ((k, v) :: kv2 :: tl2) ++ rbrace :: rest =
          encodeString k ++ (':' :: ' ' :: (encodeJValue v ++
            ',' :: ' ' :: (encodeItems (kv2 :: tl2) ++ rbrace :: rest))) := by
        simp [encodeItems]
      rw [hsplit] at hfuel ⊢
      have hlen : (encodeString k).length = (escapeList k.data).length + 2 := by
        simp [encodeString]
      simp only [List.length_append, List.length_cons] at hfuel
      have hks : parseString (f + 1)
          (encodeString k ++ (':' :: ' ' :: (encodeJValue v ++
            ',' :: ' ' :: (encodeItems (kv2 :: tl2) ++ rbrace :: rest)))) =
          some (k, ':' :: ' ' :: (encodeJValue v ++
            ',' :: ' ' :: (encodeItems (kv2 :: tl2) ++ rbrace :: rest))) := by
        apply parseString_encode
        simp [List.length_append]
        omega
      have hvv : parseJValue (f + 1) (encodeJValue v ++
          ',' :: ' ' :: (encodeItems (kv2 :: tl2) ++ rbrace :: rest)) =
          some (v, ',' :: ' ' :: (encodeItems (kv2 :: tl2) ++ rbrace :: rest)) := by
        apply parseJValue_encode
        · simp [List.length_append]
          omega
        · intro c hc
          simp at hc
          subst hc
          decide
        · exact hwfv
      have hrec : parseItems f (' ' :: (encodeItems (kv2 :: tl2) ++ rbrace :: rest)) =
          some (kv2 :: tl2, rest) := by
        rw [parseItems_ws_cons f ' ' _ (by decide)]
        apply ih f rest (by simp)
          (fun kv hkv => hwf0 kv (List.mem_cons_of_mem (k, v) hkv))
        simp only [List.length_append, List.length_cons]
        omega
      simp only [parseItems, skipWs_encodeString, hks]
      rw [skipWs_not_ws ':' _ (by decide)]
      simp only [reduceIte, skipWs_space, skipWs_encodeJValue v hwfv, hvv]
      rw [skipWs_not_ws ',' _ (by decide)]
      simp only [reduceIte, hrec, Option.map_some']


theorem loads_dumps (m : List (String × JValue))
    (hwf : ∀ kv ∈ m, (kv.2).wf = true) : loads (dumps m) = some m := by
  cases m with
  | nil => decide
  | cons kv tl =>
    obtain ⟨k, v⟩ := kv
    have hdata : (dumps ((k, v) :: tl)).data =
        lbrace :: (encodeItems ((k, v) :: tl) ++ [rbrace]) := by
      simp [dumps, encodeObj]
    obtain ⟨T, hT⟩ : ∃ T, encodeItems ((k, v) :: tl) ++ [rbrace] = '"' :: T := by
      cases tl with
      | nil =>
        exact ⟨escapeList k.data ++ '"' :: ':' :: ' ' :: (encodeJValue v ++ [rbrace]),
          by simp [encodeItems, encodeString]⟩
      | cons kv2 tl2 =>
        exact ⟨escapeList k.data ++ '"' :: ':' :: ' ' ::
          (encodeJValue v ++ ',' :: ' ' :: (encodeItems (kv2 :: tl2) ++ [rbrace])),
          by simp [encodeItems, encodeString]⟩
    have hitems : parseItems (dumps ((k, v) :: tl)).data.length
        (encodeItems ((k, v) :: tl) ++ rbrace :: []) = some ((k, v) :: tl, []) := by
      apply parseItems_encode ((k, v) :: tl) _ [] (by simp) hwf
      rw [hdata]
      simp [List.length_append]
    unfold loads
    rw [hdata]
    rw [skipWs_not_ws lbrace _ (by decide)]
    simp only [parseObject]
    rw [if_pos trivial, hT]
    rw [skipWs_not_ws '"' _ (by decide)]
    simp only [reduceIte]
    rw [if_neg (show ¬ ('"' = rbrace) by decide)]
    rw [← hT]
    have hobj : parseItems (lbrace :: (encodeItems ((k, v) :: tl) ++ [rbrace])).length
        (encodeItems ((k, v) :: tl) ++ [rbrace]) = some ((k, v) :: tl, []) := by
      rw [show (lbrace :: (encodeItems ((k, v) :: tl) ++ [rbrace])).length =
        (dumps ((k, v) :: tl)).data.length from by rw [hdata]]
      exact hitems
    rw [hobj]
    rfl


/-- C9: writing a mapping of strings to numbers (integers, or floats modelled
digit-for-digit as the decimal literals Python repr emits, with optional
fraction and exponent parts), booleans and strings through the parameters
property setter and reading the property back returns an equal mapping; the
nodup hypothesis restricts the input to the key sets a Python dict can hold,
and the well-formedness hypothesis restricts decimal values to the shapes
repr of a float actually produces (nonempty integer digits, and a fraction
or an exponent with nonempty digits). -/
theorem c9_parameters_roundtrip (rev : Revision) (m : List (String × JValue))
    (_hnodup : (m.map Prod.fst).Nodup)
    (hwf : ∀ kv ∈ m, (kv.2).wf = true) :
    (rev.setParameters m).parameters = some m := by
  show loads (dumps m) = some m
  exact loads_dumps m hwf

/-- Witness for C9 on a mapping exercising floats (plain, negative and in
exponent notation), integers, negatives, booleans and a string with quotes
and spaces. -/
theorem c9_parameters_roundtrip_witness :
    (sampleRevZ.setParameters
        [("espesor", JValue.dec false [2] [0] none),
         ("holgura", JValue.dec true [0] [2, 5] none),
         ("grande", JValue.dec false [1] [] (some (false, [1, 6]))),
         ("chico", JValue.dec false [1, 5] [] (some (true, [0, 7]))),
         ("dientes", JValue.num 30), ("con_ranura", JValue.bool true),
         ("material", JValue.str "S 235 \"JR\""), ("offset", JValue.num (-4))]).parameters =
      some [("espesor", JValue.dec false [2] [0] none),
         ("holgura", JValue.dec true [0] [2, 5] none),
         ("grande", JValue.dec false [1] [] (some (false, [1, 6]))),
         ("chico", JValue.dec false [1, 5] [] (some (true, [0, 7]))),
         ("dientes", JValue.num 30), ("con_ranura", JValue.bool true),
         ("material", JValue.str "S 235 \"JR\""), ("offset", JValue.num (-4))] :=
  c9_parameters_roundtrip sampleRevZ _ (by decide) (by decide)

end PyParamCad
